import Mathlib

/-!
Shallow embedding of the fitness-challenge archiving service
(`src/app.service.ts`, entities in `src/challenges/`).

Modelling conventions:
* JavaScript numbers appearing as timestamps / intervals are modelled as `Int`
  (the programme only ever manipulates them with `??`-defaulting, `*1000`,
  `max` and comparisons; NaN / Infinity are representable only as the result of
  `Number(...)` coercion, which is modelled by an `Option Int` result where
  `none` stands for NaN).
* `bigint` values are modelled as `Nat`: every `BigInt` built by the service
  comes from a hexadecimal literal (`BigInt("0x…")`), hence is non-negative.
* Fields persisted as decimal strings of non-negative bigints
  (`Challenge.rewardBudget`, `Challenge.rewardPerPoint`, `Participant.score`)
  are modelled by their numeric value: the source only ever writes
  `someBigInt.toString()` into them and only ever reads them back with
  `BigInt(field ?? '0')`, so the decimal-string round trip is the identity.
* A TypeScript `Set<string>` is modelled as a duplicate-free `List String`
  (insertion order, membership via `contains`); `Array` is `List`.
* The TypeORM repositories are modelled as in-memory tables (`List Challenge`,
  `List Participant`) with `save` = upsert by primary key and `findOne` =
  first match (with the query's ordering applied first, via a stable sort).
* An exception thrown by `BigInt` on a malformed hex literal is caught by the
  per-transaction `catch` in the processing loop and produces no state change,
  exactly like the handler returning early; the hex parser therefore returns
  `none` in that case.
-/

/-- Value of a loosely-typed JSON field (`number | string` in the source's
`RawTransaction` interface). -/
inductive RawValue where
  | num (n : Int)
  | str (s : String)
deriving DecidableEq, Repr

/-- Raw transaction record as delivered by the gateway (interface
`RawTransaction`); every key may be absent.  The index signature
`[key: string]: unknown` carries no further keys read by the service and is
omitted. -/
structure RawTransaction where
  txHash : Option String := none
  hash : Option String := none
  tx_hash : Option String := none
  identifier : Option String := none
  _id : Option String := none
  sender : Option String := none
  receiver : Option String := none
  data : Option String := none
  timestamp : Option RawValue := none
  timestampMs : Option RawValue := none
deriving DecidableEq, Repr

/-- Canonical transaction record (interface `NormalizedTransaction`). -/
structure NormalizedTransaction where
  txHash : String
  sender : Option String := none
  receiver : Option String := none
  data : Option String := none
  timestamp : Option Int := none
  timestampMs : Option Int := none
  raw : RawTransaction := {}
deriving DecidableEq, Repr

/-- Decoded contract call (interface `DecodedCallData`). -/
structure DecodedCallData where
  functionName : String
  args : List String
deriving DecidableEq, Repr

/-- Persisted challenge row (`ChallengeEntity`).  `openedAt`/`closedAt` dates
are modelled by their millisecond value; the ORM-managed audit columns
`createdAt`/`updatedAt` are not read by the service and are omitted. -/
structure Challenge where
  id : String
  creator : String
  startTimestamp : Nat
  endTimestamp : Nat
  rewardBudget : Nat
  rewardPerPoint : Nat
  active : Bool
  createdTxHash : String
  closedTxHash : Option String := none
  lastUpdatedTxHash : String
  openedAt : Option Int := none
  closedAt : Option Int := none
deriving DecidableEq, Repr

/-- Persisted participant row (`ChallengeParticipantEntity`), keyed by
(`challengeId`, `address`). -/
structure Participant where
  challengeId : String
  address : String
  score : Nat
  joinTxHash : String
  joinedAt : Option Int := none
  lastUpdateTxHash : Option String := none
  lastScoreChangeAt : Option Int := none
deriving DecidableEq, Repr

/-- The two persisted tables the effect handlers read and write. -/
structure DBState where
  challenges : List Challenge
  participants : List Participant
deriving DecidableEq, Repr

/-- In-memory dedup state of `AppService`: the `processedTxHashes` set, the
`processedTxQueue` FIFO and the `latestTimestampMs` high-water-mark. -/
structure DedupWindow where
  processedTxHashes : List String
  processedTxQueue : List String
  latestTimestampMs : Option Int
deriving DecidableEq, Repr

/-- The window at process start (both containers empty, no high-water-mark). -/
def emptyWindow : DedupWindow := ⟨[], [], none⟩

/-- Source constant `processedTxCacheLimit`. -/
def processedTxCacheLimit : Nat := 500

/-- Source constant `trackedFunctions`. -/
def trackedFunctions : List String :=
  ["createChallenge", "joinChallenge", "submitWorkout", "closeChallenge"]

/-- Numeric value of a list of decimal digit characters. -/
def decimalValue (l : List Char) : Int :=
  l.foldl (fun a c => a * 10 + ((c.toNat : Int) - 48)) 0

/-- JavaScript `Number(...)` applied to an already-whitespace-trimmed
character list, modelled on the fragment the service can meet: the empty
(all-whitespace) string is 0, an optionally `-`-signed decimal integer
literal is its value and anything else is NaN (`none`). -/
def jsNumberChars (l : List Char) : Option Int :=
  if l.length = 0 then some 0
  else if l.all Char.isDigit then some (decimalValue l)
  else
    match l with
    | '-' :: rest =>
      if rest.length > 0 ∧ rest.all Char.isDigit then some (-decimalValue rest)
      else none
    | _ => none

/-- JavaScript `Number(s)`: trim surrounding whitespace, then parse. -/
def jsStringToNumber (s : String) : Option Int :=
  jsNumberChars
    ((s.data.dropWhile Char.isWhitespace).reverse.dropWhile Char.isWhitespace).reverse

/-- Method `parsePossibleNumber`: a finite `number` is returned as-is, a
non-empty `string` goes through `Number(...)`, everything else is
`undefined`; NaN (and the infinities, not producible in the modelled
fragment) fail the `Number.isFinite` check, yielding `undefined`. -/
def parsePossibleNumber : Option RawValue → Option Int
  | some (.num n) => some n
  | some (.str s) => if s.length > 0 then jsStringToNumber s else none
  | none => none

/-- JavaScript `a || b` on optional strings: an absent or empty (falsy) `a`
yields `b`. -/
def jsOrString (a b : Option String) : Option String :=
  match a with
  | some s => if s.length > 0 then some s else b
  | none => b

/-- Method `normalizeRawTransaction`: pick the hash through the alias chain
`txHash || hash || tx_hash || identifier || _id`, discard the record when the
result is falsy, and derive `timestamp` / `timestampMs`. -/
def normalizeRawTransaction (tx : RawTransaction) : Option NormalizedTransaction :=
  let txHash :=
    jsOrString (jsOrString (jsOrString (jsOrString tx.txHash tx.hash) tx.tx_hash)
      tx.identifier) tx._id
  match txHash with
  | none => none
  | some h =>
    if h.length = 0 then none
    else
      let timestamp := parsePossibleNumber tx.timestamp
      let timestampMs :=
        parsePossibleNumber tx.timestampMs <|> timestamp.map (· * 1000)
      some { txHash := h, sender := tx.sender, receiver := tx.receiver,
             data := tx.data, timestamp := timestamp, timestampMs := timestampMs,
             raw := tx }

/-- Method `matchesContract`: `Boolean(address && address.toLowerCase() ===
this.contractAddressLower)`. -/
def matchesContract (contractAddressLower : String) (address : Option String) : Bool :=
  match address with
  | none => false
  | some a => if a.length = 0 then false else a.toLower == contractAddressLower

/-- Sort key used by `fetchRecentTransactions`: `tx.timestampMs ?? 0`. -/
def txTimestampKey (tx : NormalizedTransaction) : Int :=
  tx.timestampMs.getD 0

/-- Pure part of `fetchRecentTransactions` applied to the gateway response
body: normalize every record, keep those addressed to the watched contract and
sort ascending by `timestampMs ?? 0` (JavaScript `Array.prototype.sort` is a
stable sort; it is modelled by the stable `List.insertionSort`). -/
def fetchRecentTransactionsPipeline (contractAddressLower : String)
    (data : List RawTransaction) : List NormalizedTransaction :=
  if data.isEmpty then []
  else
    let normalized := (data.filterMap normalizeRawTransaction).filter
      (fun tx => matchesContract contractAddressLower tx.receiver)
    List.insertionSort (fun a b => txTimestampKey a ≤ txTimestampKey b) normalized

/-- Method `parseHexToBigInt`: strip an optional `0x` prefix and evaluate the
hex literal; an empty input yields `undefined` and a malformed literal makes
`BigInt` throw, which the per-transaction `catch` turns into "no state
change", modelled as `none`. -/
def parseHexToBigInt : Option String → Option Nat
  | none => none
  | some v =>
    if v.length = 0 then none
    else
      let normalized := if v.startsWith "0x" then v.drop 2 else v
      if normalized.length = 0 then none
      else if normalized.data.all (fun c =>
          c.isDigit || ('a' ≤ c && c ≤ 'f') || ('A' ≤ c && c ≤ 'F')) then
        some (normalized.data.foldl (fun a c =>
          a * 16 + (if c.isDigit then c.toNat - 48
                    else if 'a' ≤ c then c.toNat - 87 else c.toNat - 55)) 0)
      else none

/-- Method `safeNumberFromBigInt`: clamp to `Number.MAX_SAFE_INTEGER`. -/
def safeNumberFromBigInt : Option Nat → Option Nat
  | none => none
  | some v => if v > 9007199254740991 then some 9007199254740991 else some v

/-- Method `toDateFromTx`: `ms ? new Date(ms) : undefined` — note the falsy
check, a zero millisecond value yields no date. -/
def toDateFromTx (tx : NormalizedTransaction) : Option Int :=
  match tx.timestampMs <|> tx.timestamp.map (· * 1000) with
  | none => none
  | some ms => if ms = 0 then none else some ms

/-- Method `getActiveChallenge`: `findOne({where: {active: true}, order:
{startTimestamp: 'DESC'}})` — the first row among the active ones after
sorting by `startTimestamp` descending (ties resolved stably). -/
def getActiveChallenge (challenges : List Challenge) : Option Challenge :=
  (List.insertionSort (fun a b => b.startTimestamp ≤ a.startTimestamp)
    (challenges.filter (fun c => c.active))).head?

/-- Repository `save` on `challenges`: upsert by the primary key `id`. -/
def saveChallenge (challenges : List Challenge) (c : Challenge) : List Challenge :=
  if challenges.any (fun x => x.id == c.id) then
    challenges.map (fun x => if x.id == c.id then c else x)
  else challenges ++ [c]

/-- Composite-key predicate for `challenge_participants`. -/
def participantKeyMatches (cid addr : String) (p : Participant) : Bool :=
  p.challengeId == cid && p.address == addr

/-- Repository `findOne({where: {challengeId, address}})`. -/
def findParticipant (ps : List Participant) (cid addr : String) : Option Participant :=
  ps.find? (participantKeyMatches cid addr)

/-- Repository `save` on `challenge_participants`: upsert by the composite
primary key (`challengeId`, `address`). -/
def saveParticipant (ps : List Participant) (p : Participant) : List Participant :=
  if ps.any (participantKeyMatches p.challengeId p.address) then
    ps.map (fun x => if participantKeyMatches p.challengeId p.address x then p else x)
  else ps ++ [p]

/-- Handler `handleChallengeCreated`: skip when a challenge keyed by this tx
hash is already archived or the start/end arguments are missing; otherwise
deactivate every active challenge and insert the new active one. -/
def handleChallengeCreated (db : DBState) (tx : NormalizedTransaction)
    (args : List String) : DBState :=
  if db.challenges.any (fun c => c.id == tx.txHash) then db
  else
    match parseHexToBigInt args[0]?, parseHexToBigInt args[1]? with
    | some start, some endTs =>
      let rewardBudget := (parseHexToBigInt args[2]?).getD 0
      let rewardPerPoint := (parseHexToBigInt args[3]?).getD 0
      let deactivated := db.challenges.map (fun c =>
        if c.active then { c with active := false, lastUpdatedTxHash := tx.txHash }
        else c)
      let entity : Challenge :=
        { id := tx.txHash, creator := tx.sender.getD "unknown",
          startTimestamp := (safeNumberFromBigInt (some start)).getD 0,
          endTimestamp := (safeNumberFromBigInt (some endTs)).getD 0,
          rewardBudget := rewardBudget, rewardPerPoint := rewardPerPoint,
          active := true, createdTxHash := tx.txHash, closedTxHash := none,
          lastUpdatedTxHash := tx.txHash, openedAt := toDateFromTx tx,
          closedAt := none }
      { db with challenges := saveChallenge deactivated entity }
    | _, _ => db

/-- Handler `handleChallengeClosed`: close the active challenge unless none
exists or it was already last updated by this tx hash. -/
def handleChallengeClosed (db : DBState) (tx : NormalizedTransaction) : DBState :=
  match getActiveChallenge db.challenges with
  | none => db
  | some c =>
    if c.lastUpdatedTxHash == tx.txHash then db
    else
      let c' := { c with
        active := false, closedTxHash := some tx.txHash,
        lastUpdatedTxHash := tx.txHash, closedAt := toDateFromTx tx }
      { db with challenges := saveChallenge db.challenges c' }

/-- Handler `handleJoinChallenge`: create-or-update the participant row for
(active challenge, sender), preserving any pre-existing score. -/
def handleJoinChallenge (db : DBState) (tx : NormalizedTransaction) : DBState :=
  match tx.sender with
  | none => db
  | some sender =>
    match getActiveChallenge db.challenges with
    | none => db
    | some challenge =>
      let participant := findParticipant db.participants challenge.id sender
      if participant.map (fun p => p.joinTxHash) == some tx.txHash then db
      else
        let payload : Participant :=
          { challengeId := challenge.id, address := sender,
            score := (participant.map (fun p => p.score)).getD 0,
            joinTxHash := tx.txHash,
            joinedAt := toDateFromTx tx <|> participant.bind (fun p => p.joinedAt),
            lastUpdateTxHash := participant.bind (fun p => p.lastUpdateTxHash),
            lastScoreChangeAt := participant.bind (fun p => p.lastScoreChangeAt) }
        { db with participants := saveParticipant db.participants payload }

/-- Handler `handleWorkoutSubmitted`: add the submitted points to the
participant's score, creating the row (score 0 base) when absent; skip when
the participant's `lastUpdateTxHash` already equals this tx hash. -/
def handleWorkoutSubmitted (db : DBState) (tx : NormalizedTransaction)
    (args : List String) : DBState :=
  match tx.sender with
  | none => db
  | some sender =>
    match getActiveChallenge db.challenges with
    | none => db
    | some challenge =>
      match parseHexToBigInt args[0]? with
      | none => db
      | some points =>
        let participant := findParticipant db.participants challenge.id sender
        if participant.bind (fun p => p.lastUpdateTxHash) == some tx.txHash then db
        else
          let currentScore := (participant.map (fun p => p.score)).getD 0
          let payload : Participant :=
            { challengeId := challenge.id, address := sender,
              score := currentScore + points,
              joinTxHash := (participant.map (fun p => p.joinTxHash)).getD tx.txHash,
              joinedAt := participant.bind (fun p => p.joinedAt) <|> toDateFromTx tx,
              lastUpdateTxHash := some tx.txHash,
              lastScoreChangeAt := toDateFromTx tx }
          { db with participants := saveParticipant db.participants payload }

/-- Effective timestamp used by the dedup window:
`tx.timestampMs ?? tx.timestamp ?? 0` (the expression appears verbatim in both
`filterNovelTransactions` and `markTransactionProcessed`). -/
def effectiveTimestamp (tx : NormalizedTransaction) : Int :=
  (tx.timestampMs <|> tx.timestamp).getD 0

/-- Per-transaction test of `filterNovelTransactions`: not yet in the
membership set, and at or after the high-water-mark when one is set. -/
def isNovelTransaction (w : DedupWindow) (tx : NormalizedTransaction) : Bool :=
  if w.processedTxHashes.contains tx.txHash then false
  else
    match w.latestTimestampMs with
    | none => true
    | some m => decide (m ≤ effectiveTimestamp tx)

/-- Method `filterNovelTransactions`. -/
def filterNovelTransactions (w : DedupWindow) (txs : List NormalizedTransaction) :
    List NormalizedTransaction :=
  txs.filter (isNovelTransaction w)

/-- Method `markTransactionProcessed`: always advance the high-water-mark;
when the hash is new, append it to set and queue and evict the oldest entry
once the queue exceeds the 500-entry limit. -/
def markTransactionProcessed (w : DedupWindow) (tx : NormalizedTransaction) :
    DedupWindow :=
  let timestamp := effectiveTimestamp tx
  let latest := some (max (w.latestTimestampMs.getD 0) timestamp)
  if w.processedTxHashes.contains tx.txHash then
    { w with latestTimestampMs := latest }
  else
    let hashes := w.processedTxHashes ++ [tx.txHash]
    let queue := w.processedTxQueue ++ [tx.txHash]
    if queue.length > processedTxCacheLimit then
      match queue with
      | [] => { processedTxHashes := hashes, processedTxQueue := [],
                latestTimestampMs := latest }
      | oldest :: rest =>
        { processedTxHashes := hashes.erase oldest, processedTxQueue := rest,
          latestTimestampMs := latest }
    else
      { processedTxHashes := hashes, processedTxQueue := queue,
        latestTimestampMs := latest }

/-- Value of a base64 alphabet character. -/
def base64CharValue (c : Char) : Option Nat :=
  if 'A' ≤ c ∧ c ≤ 'Z' then some (c.toNat - 65)
  else if 'a' ≤ c ∧ c ≤ 'z' then some (c.toNat - 71)
  else if '0' ≤ c ∧ c ≤ '9' then some (c.toNat + 4)
  else if c = '+' then some 62
  else if c = '/' then some 63
  else none

/-- Decode a base64 quantum list (padding already stripped, its length is the
number of trailing bytes to keep from the last group). -/
def base64Groups : List Char → Option (List Nat)
  | [] => some []
  | [_] => none
  | [a, b] => do
      let va ← base64CharValue a
      let vb ← base64CharValue b
      pure [(va * 4 + vb / 16) % 256]
  | [a, b, c] => do
      let va ← base64CharValue a
      let vb ← base64CharValue b
      let vc ← base64CharValue c
      pure [(va * 4 + vb / 16) % 256, (vb % 16 * 16 + vc / 4) % 256]
  | a :: b :: c :: d :: rest => do
      let va ← base64CharValue a
      let vb ← base64CharValue b
      let vc ← base64CharValue c
      let vd ← base64CharValue d
      let tail ← base64Groups rest
      pure ((va * 4 + vb / 16) % 256 :: (vb % 16 * 16 + vc / 4) % 256 ::
            (vc % 4 * 64 + vd) % 256 :: tail)

/-- Decode a base64 string (standard alphabet, optional `=` padding) to its
byte values; `none` on malformed input. -/
def decodeBase64 (s : String) : Option (List Nat) :=
  let chars := s.data
  let stripped := if chars.reverse.take 2 = ['=', '='] then chars.dropLast.dropLast
                  else if chars.reverse.take 1 = ['='] then chars.dropLast
                  else chars
  base64Groups stripped

/-- Method `decodeTransactionData`: base64 → UTF-8 → split on `@`; an absent
or falsy payload, a decoding failure or an empty function name yields
`undefined`; empty argument segments are dropped. -/
def decodeTransactionData (data : Option String) : Option DecodedCallData :=
  match data with
  | none => none
  | some d =>
    if d.length = 0 then none
    else
      match decodeBase64 d >>= fun bytes =>
          String.fromUTF8? (ByteArray.mk (Array.mk (bytes.map (fun b => UInt8.ofNat b)))) with
      | none => none
      | some decoded =>
        match decoded.splitOn "@" with
        | [] => none
        | functionName :: args =>
          if functionName.length = 0 then none
          else some { functionName := functionName,
                      args := args.filter (fun arg => arg.length > 0) }

/-- Dispatch step of `processFitnessContractTransactions` for one transaction:
decode the call data, drop untracked or undecodable calls, and run the
matching handler.  This is the body of the per-transaction `try` block. -/
def dispatchTransaction (db : DBState) (tx : NormalizedTransaction) : DBState :=
  match decodeTransactionData tx.data with
  | none => db
  | some decoded =>
    if trackedFunctions.contains decoded.functionName then
      match decoded.functionName with
      | "createChallenge" => handleChallengeCreated db tx decoded.args
      | "closeChallenge" => handleChallengeClosed db tx
      | "joinChallenge" => handleJoinChallenge db tx
      | "submitWorkout" => handleWorkoutSubmitted db tx decoded.args
      | _ => db
    else db

/-- Processing loop of `processFitnessContractTransactions` over the novel
transactions.  The persistence boundary can throw inside the `try` block, so
the attempted work is a parameter: `attempt db tx` returns the database state
after the `try` block together with a success flag; on `false` (an exception
was thrown) the loop logs and continues.  The `finally` block marks the
transaction processed in either case. -/
def processNovelTransactions (attempt : DBState → NormalizedTransaction → DBState × Bool) :
    DBState → DedupWindow → List NormalizedTransaction → DBState × DedupWindow
  | db, w, [] => (db, w)
  | db, w, tx :: rest =>
    let r := attempt db tx
    processNovelTransactions attempt r.1 (markTransactionProcessed w tx) rest

/-- The fault-free attempt: the `try` block runs `dispatchTransaction` to
completion. -/
def attemptOk (db : DBState) (tx : NormalizedTransaction) : DBState × Bool :=
  (dispatchTransaction db tx, true)

/-- An attempt in which the persistence layer throws for exactly the
transactions selected by `fails`, before any write lands. -/
def attemptWithFailures (fails : NormalizedTransaction → Bool)
    (db : DBState) (tx : NormalizedTransaction) : DBState × Bool :=
  if fails tx then (db, false) else (dispatchTransaction db tx, true)

/-- Method `processFitnessContractTransactions` on state
(database, dedup window). -/
def processFitnessContractTransactions (db : DBState) (w : DedupWindow)
    (transactions : List NormalizedTransaction) : DBState × DedupWindow :=
  if transactions.isEmpty then (db, w)
  else
    let novel := filterNovelTransactions w transactions
    if novel.isEmpty then (db, w)
    else processNovelTransactions attemptOk db w novel

/-- Constructor line `this.pollIntervalMs = Number(get('TX_POLL_INTERVAL_MS'))
|| 30_000`: `Number(undefined)` is NaN, and both NaN and 0 are falsy, so they
fall back to the default. -/
def computePollIntervalMs (cfg : Option String) : Int :=
  match cfg with
  | none => 30000
  | some s =>
    match jsStringToNumber s with
    | none => 30000
    | some n => if n = 0 then 30000 else n

/-- Method `startPollingLoop` arms the repeating timer exactly when the
computed interval is positive. -/
def repeatingTimerArmed (cfg : Option String) : Bool :=
  decide (0 < computePollIntervalMs cfg)

/-- Invariant on the `challenges` table: at most one row is active. -/
def atMostOneActive (cs : List Challenge) : Prop :=
  cs.countP (fun c => c.active) ≤ 1

/-- A challenge-lifecycle effect (the two handlers that touch the
`challenges` table). -/
inductive ChallengeEffect where
  | created (tx : NormalizedTransaction) (args : List String)
  | closed (tx : NormalizedTransaction)

/-- Apply one challenge-lifecycle effect. -/
def applyChallengeEffect (db : DBState) : ChallengeEffect → DBState
  | .created tx args => handleChallengeCreated db tx args
  | .closed tx => handleChallengeClosed db tx

/-- Invariant bundle maintained by the dedup window: the membership set holds
exactly the hashes of the FIFO queue (as a multiset, hence as a set, both
being duplicate-free), the queue is duplicate-free and the queue never exceeds
the 500-entry capacity. -/
def WindowInv (w : DedupWindow) : Prop :=
  w.processedTxHashes.Perm w.processedTxQueue ∧
  w.processedTxQueue.Nodup ∧
  w.processedTxQueue.length ≤ processedTxCacheLimit

/-- Spec-side reading of a hash alias field: present and usable (non-empty). -/
def usableHash (o : Option String) : Option String :=
  o.bind (fun s => if s.length > 0 then some s else none)

/-- Spec-side hash selection: the first usable alias field in the fixed
lookup order `txHash`, `hash`, `tx_hash`, `identifier`, `_id` wins. -/
def firstUsableHash (tx : RawTransaction) : Option String :=
  (((usableHash tx.txHash <|> usableHash tx.hash) <|> usableHash tx.tx_hash) <|>
    usableHash tx.identifier) <|> usableHash tx._id

/-- Spec-side timestamp derivation: the explicit milliseconds field wins,
otherwise the seconds field times 1000, otherwise absent. -/
def specTimestampMs (tx : RawTransaction) : Option Int :=
  parsePossibleNumber tx.timestampMs <|>
    (parsePossibleNumber tx.timestamp).map (· * 1000)

/-- Spec-side sum of the point values of the distinct (by transaction hash,
hence by whole pair, a replayed transaction carrying its original points)
submissions of a list. -/
def specDistinctSum (l : List (String × Nat)) : Nat :=
  (l.dedup.map (fun x => x.2)).sum

/-- Sum of the point values the submit handler actually accumulates along a
submission list, given the participant's current `lastUpdateTxHash`: an
immediately repeated transaction hash is skipped by the idempotency guard,
any other submission is added and becomes the new `lastUpdateTxHash`. -/
def effectiveScoreSum : Option String → List (String × Nat) → Nat
  | _, [] => 0
  | last, x :: rest =>
    if last = some x.1 then effectiveScoreSum last rest
    else x.2 + effectiveScoreSum (some x.1) rest

/-- Score of the participant row keyed (`cid`, `addr`), 0 when absent
(mirrors the handler's own read `BigInt(participant?.score ?? '0')`). -/
def scoreOf (db : DBState) (cid addr : String) : Nat :=
  ((findParticipant db.participants cid addr).map (fun p => p.score)).getD 0

/-- A bare `submitWorkout`-style transaction with the given hash and
sender. -/
def submitTxOf (h a : String) : NormalizedTransaction :=
  { txHash := h, sender := some a }

/-- Fold `handleWorkoutSubmitted` over a list of (hash, points) submissions
of one sender, the call-data arguments of each submission being supplied by
`argsOf`. -/
def applyWorkoutSubmissions (db : DBState) (a : String)
    (argsOf : String × Nat → List String) (l : List (String × Nat)) : DBState :=
  l.foldl (fun d x => handleWorkoutSubmitted d (submitTxOf x.1 a) (argsOf x)) db

/-- A concrete one-row challenge table used by the concrete instances. -/
def sampleChallenge : Challenge :=
  { id := "A", creator := "alice", startTimestamp := 0, endTimestamp := 10,
    rewardBudget := 0, rewardPerPoint := 0, active := true,
    createdTxHash := "A", lastUpdatedTxHash := "A" }

/-- Database holding exactly the sample active challenge and no
participants. -/
def sampleDB : DBState := { challenges := [sampleChallenge], participants := [] }

/-- Family of pairwise-distinct transactions used by the dedup-window
instances: the hash of the `i`-th member is the string of `i + 1` letters
`a`. -/
def c5tx (i : Nat) (t : Int) : NormalizedTransaction :=
  { txHash := String.mk (List.replicate (i + 1) 'a'), timestampMs := some t }

/-- 501 distinct-hash transactions with strictly increasing timestamps. -/
def c5IncreasingBatch : List NormalizedTransaction :=
  (List.range 501).map (fun i => c5tx i i)

/-- 501 distinct-hash transactions all carrying the same timestamp 0 (a
monotonically non-decreasing sequence). -/
def c5ConstantBatch : List NormalizedTransaction :=
  (List.range 501).map (fun i => c5tx i 0)

/-- The challenge row inserted by the effect branch of
`handleChallengeCreated` (named form of the entity literal in the handler). -/
def createdEntity (tx : NormalizedTransaction) (args : List String)
    (start endTs : Nat) : Challenge :=
  { id := tx.txHash, creator := tx.sender.getD "unknown",
    startTimestamp := (safeNumberFromBigInt (some start)).getD 0,
    endTimestamp := (safeNumberFromBigInt (some endTs)).getD 0,
    rewardBudget := (parseHexToBigInt args[2]?).getD 0,
    rewardPerPoint := (parseHexToBigInt args[3]?).getD 0,
    active := true, createdTxHash := tx.txHash, closedTxHash := none,
    lastUpdatedTxHash := tx.txHash, openedAt := toDateFromTx tx,
    closedAt := none }

/-- The closed challenge row written by the effect branch of
`handleChallengeClosed`. -/
def closedEntity (c : Challenge) (tx : NormalizedTransaction) : Challenge :=
  { c with
    active := false, closedTxHash := some tx.txHash,
    lastUpdatedTxHash := tx.txHash, closedAt := toDateFromTx tx }

/-- The participant row written by the effect branch of
`handleJoinChallenge`. -/
def joinPayload (ch : Challenge) (sender : String) (tx : NormalizedTransaction)
    (participant : Option Participant) : Participant :=
  { challengeId := ch.id, address := sender,
    score := (participant.map (fun p => p.score)).getD 0,
    joinTxHash := tx.txHash,
    joinedAt := toDateFromTx tx <|> participant.bind (fun p => p.joinedAt),
    lastUpdateTxHash := participant.bind (fun p => p.lastUpdateTxHash),
    lastScoreChangeAt := participant.bind (fun p => p.lastScoreChangeAt) }

/-- The participant row written by the effect branch of
`handleWorkoutSubmitted`. -/
def submitPayload (ch : Challenge) (sender : String) (tx : NormalizedTransaction)
    (points : Nat) (participant : Option Participant) : Participant :=
  { challengeId := ch.id, address := sender,
    score := (participant.map (fun p => p.score)).getD 0 + points,
    joinTxHash := (participant.map (fun p => p.joinTxHash)).getD tx.txHash,
    joinedAt := participant.bind (fun p => p.joinedAt) <|> toDateFromTx tx,
    lastUpdateTxHash := some tx.txHash,
    lastScoreChangeAt := toDateFromTx tx }

/-! Helper lemmas. -/

lemma usableHash_jsOrString (a b : Option String) :
    usableHash (jsOrString a b) = (usableHash a <|> usableHash b) := by
  cases a with
  | none => simp [jsOrString, usableHash]
  | some s =>
    by_cases h : s.length > 0 <;>
      simp [jsOrString, usableHash, h]

lemma normalizeRawTransaction_eq (tx : RawTransaction) :
    normalizeRawTransaction tx =
      (firstUsableHash tx).map (fun h =>
        { txHash := h, sender := tx.sender, receiver := tx.receiver,
          data := tx.data, timestamp := parsePossibleNumber tx.timestamp,
          timestampMs := specTimestampMs tx, raw := tx }) := by
  have hchain : firstUsableHash tx =
      usableHash (jsOrString (jsOrString (jsOrString (jsOrString tx.txHash tx.hash)
        tx.tx_hash) tx.identifier) tx._id) := by
    rw [usableHash_jsOrString, usableHash_jsOrString, usableHash_jsOrString,
      usableHash_jsOrString]
    rfl
  rw [hchain]
  unfold normalizeRawTransaction specTimestampMs
  cases hc : jsOrString (jsOrString (jsOrString (jsOrString tx.txHash tx.hash)
      tx.tx_hash) tx.identifier) tx._id with
  | none => simp [usableHash]
  | some h =>
    by_cases hl : h.length > 0
    · have : ¬ h.length = 0 := by omega
      simp [usableHash, hl, this]
    · have : h.length = 0 := by omega
      simp [usableHash, hl, this]

/-! Claim theorems. -/

/-- Claim C9: normalization picks the hash by the fixed alias lookup order
with the first present usable (non-empty, since an empty string is falsy in
the source's `||` chain) key winning, yields nothing exactly when no usable
hash exists, and derives `timestampMs` preferring the explicit milliseconds
field, falling back to seconds times 1000, absent exactly when both are
non-numeric or missing — the transaction being kept regardless. -/
theorem c9_normalization_characterization (tx : RawTransaction) :
    (normalizeRawTransaction tx = none ↔ firstUsableHash tx = none) ∧
    (∀ h, firstUsableHash tx = some h →
      ∃ n, normalizeRawTransaction tx = some n ∧ n.txHash = h ∧
        n.timestampMs = specTimestampMs tx ∧
        (n.timestampMs = none ↔
          parsePossibleNumber tx.timestampMs = none ∧
          parsePossibleNumber tx.timestamp = none)) := by
  constructor
  · rw [normalizeRawTransaction_eq]
    cases firstUsableHash tx <;> simp
  · intro h hh
    rw [normalizeRawTransaction_eq, hh]
    refine ⟨_, rfl, rfl, rfl, ?_⟩
    show specTimestampMs tx = none ↔ _
    unfold specTimestampMs
    cases hms : parsePossibleNumber tx.timestampMs <;>
      cases hs : parsePossibleNumber tx.timestamp <;> simp

/-- Claim C9 witness: a record carrying only a usable `hash` alias and a
seconds timestamp is normalized, keeps that hash and derives the
milliseconds timestamp. -/
theorem c9_normalization_characterization_witness :
    firstUsableHash { hash := some "h", timestamp := some (.num 5) } = some "h" ∧
    ∃ n, normalizeRawTransaction { hash := some "h", timestamp := some (.num 5) } = some n ∧
      n.txHash = "h" ∧
      n.timestampMs = specTimestampMs { hash := some "h", timestamp := some (.num 5) } ∧
      (n.timestampMs = none ↔
        parsePossibleNumber (RawTransaction.timestampMs { hash := some "h", timestamp := some (.num 5) }) = none ∧
        parsePossibleNumber (RawTransaction.timestamp { hash := some "h", timestamp := some (.num 5) }) = none) :=
  ⟨by decide,
    (c9_normalization_characterization { hash := some "h", timestamp := some (.num 5) }).2
      "h" (by decide)⟩

/-- Claim C8 counterexample: the configured value `0`, which is ≤ 0, does not
disable polling — the falsy-default coercion `Number(...) || 30000` replaces
it with the 30000 ms default and the repeating timer is armed. -/
theorem c8_zero_interval_counterexample :
    computePollIntervalMs (some "0") = 30000 ∧
    repeatingTimerArmed (some "0") = true := by
  decide

/-- Claim C8 (amended): an unset `TX_POLL_INTERVAL_MS` defaults to 30000 ms
with the repeating timer armed, and every configured value parsing to a
negative number disables the repeating timer (one-shot mode); a configured 0
is coerced to the 30000 ms default by the falsy-default `||` and the timer is
armed. -/
theorem c8_poll_interval_amended (s : String) (n : Int)
    (hn : jsStringToNumber s = some n) (hneg : n < 0) :
    (computePollIntervalMs none = 30000 ∧ repeatingTimerArmed none = true) ∧
    computePollIntervalMs (some s) = n ∧
    repeatingTimerArmed (some s) = false := by
  have hz : ¬ n = 0 := by omega
  have h1 : computePollIntervalMs (some s) = n := by
    simp [computePollIntervalMs, hn, hz]
  refine ⟨by decide, h1, ?_⟩
  simp [repeatingTimerArmed, h1]
  omega

/-- Claim C8 witness: the configured value `-5` parses to the negative
number -5 and polling is disabled. -/
theorem c8_poll_interval_amended_witness :
    jsStringToNumber "-5" = some (-5) ∧ (-5 : Int) < 0 ∧
    ((computePollIntervalMs none = 30000 ∧ repeatingTimerArmed none = true) ∧
      computePollIntervalMs (some "-5") = -5 ∧
      repeatingTimerArmed (some "-5") = false) :=
  ⟨by decide, by decide, c8_poll_interval_amended "-5" (-5) (by decide) (by decide)⟩

/-- Claim C4: a transaction is classified novel (and so passed on to the
projection loop) iff its hash is not in the membership set and, when a
high-water-mark is set, its timestamp (absent treated as 0) is at least the
high-water-mark.  The shape hypothesis (an absent `timestampMs` implies an
absent `timestamp`) holds for every output of the normalizer, where
`timestampMs` is derived from `timestamp`. -/
theorem c4_novel_characterization (w : DedupWindow) (tx : NormalizedTransaction)
    (txs : List NormalizedTransaction)
    (hshape : tx.timestampMs = none → tx.timestamp = none) :
    (isNovelTransaction w tx = true ↔
      (tx.txHash ∉ w.processedTxHashes ∧
        (w.latestTimestampMs = none ∨
          ∃ m, w.latestTimestampMs = some m ∧ m ≤ tx.timestampMs.getD 0))) ∧
    (tx ∈ filterNovelTransactions w txs ↔
      tx ∈ txs ∧ isNovelTransaction w tx = true) := by
  have heff : effectiveTimestamp tx = tx.timestampMs.getD 0 := by
    cases hms : tx.timestampMs with
    | some v => simp [effectiveTimestamp, hms]
    | none => simp [effectiveTimestamp, hms, hshape hms]
  constructor
  · unfold isNovelTransaction
    by_cases hc : tx.txHash ∈ w.processedTxHashes
    · simp [List.contains, List.elem_eq_mem, hc]
    · cases hl : w.latestTimestampMs with
      | none => simp [List.contains, List.elem_eq_mem, hc]
      | some m => simp [List.contains, List.elem_eq_mem, hc, heff]
  · simp [filterNovelTransactions, List.mem_filter]

/-- Claim C4 witness: with hash `Y` absent from the window and timestamp 3 at
the high-water-mark 3, the transaction is novel and kept by the filter. -/
theorem c4_novel_characterization_witness :
    ((some 3 : Option Int) = none → (none : Option Int) = none) ∧
    ((isNovelTransaction ⟨["X"], ["X"], some 3⟩ { txHash := "Y", timestampMs := some 3 } = true ↔
      (("Y" : String) ∉ ["X"] ∧
        ((some 3 : Option Int) = none ∨
          ∃ m, (some 3 : Option Int) = some m ∧
            m ≤ (Option.getD (some 3) 0 : Int)))) ∧
      ({ txHash := "Y", timestampMs := some 3 } ∈
          filterNovelTransactions ⟨["X"], ["X"], some 3⟩
            [{ txHash := "Y", timestampMs := some 3 }] ↔
        ({ txHash := "Y", timestampMs := some 3 } : NormalizedTransaction) ∈
            [({ txHash := "Y", timestampMs := some 3 } : NormalizedTransaction)] ∧
          isNovelTransaction ⟨["X"], ["X"], some 3⟩
            { txHash := "Y", timestampMs := some 3 } = true)) :=
  ⟨by decide,
    c4_novel_characterization ⟨["X"], ["X"], some 3⟩ { txHash := "Y", timestampMs := some 3 }
      [{ txHash := "Y", timestampMs := some 3 }] (by decide)⟩

lemma mark_already_present (w : DedupWindow) (tx : NormalizedTransaction)
    (hc : tx.txHash ∈ w.processedTxHashes) :
    markTransactionProcessed w tx =
      ⟨w.processedTxHashes, w.processedTxQueue,
        some (max (w.latestTimestampMs.getD 0) (effectiveTimestamp tx))⟩ := by
  unfold markTransactionProcessed
  simp [List.contains, List.elem_eq_mem, hc]

lemma mark_new_no_evict (w : DedupWindow) (tx : NormalizedTransaction)
    (hc : tx.txHash ∉ w.processedTxHashes)
    (hlen : w.processedTxQueue.length + 1 ≤ processedTxCacheLimit) :
    markTransactionProcessed w tx =
      ⟨w.processedTxHashes ++ [tx.txHash], w.processedTxQueue ++ [tx.txHash],
        some (max (w.latestTimestampMs.getD 0) (effectiveTimestamp tx))⟩ := by
  have hno : ¬ processedTxCacheLimit < w.processedTxQueue.length + 1 := by omega
  unfold markTransactionProcessed
  simp [List.contains, List.elem_eq_mem, hc, hno]

lemma mark_new_evict (w : DedupWindow) (tx : NormalizedTransaction)
    (hc : tx.txHash ∉ w.processedTxHashes)
    (hbig : processedTxCacheLimit < w.processedTxQueue.length + 1) :
    markTransactionProcessed w tx =
      ⟨(w.processedTxHashes ++ [tx.txHash]).erase
          ((w.processedTxQueue ++ [tx.txHash]).headD ""),
        (w.processedTxQueue ++ [tx.txHash]).tail,
        some (max (w.latestTimestampMs.getD 0) (effectiveTimestamp tx))⟩ := by
  cases hqq : w.processedTxQueue with
  | nil =>
    exfalso
    rw [hqq] at hbig
    simp [processedTxCacheLimit] at hbig
  | cons q0 qt =>
    have hyes : processedTxCacheLimit < qt.length + 1 + 1 := by
      have : w.processedTxQueue.length = qt.length + 1 := by rw [hqq]; simp
      omega
    unfold markTransactionProcessed
    rw [hqq]
    simp [List.contains, List.elem_eq_mem, hc, hyes]

/-- Claim C10: marking preserves the window invariants — the membership set
holds exactly the queue's hashes, the queue is duplicate-free and holds at
most 500 entries — the high-water-mark is always advanced to the maximum of
its old value and the transaction's timestamp (so it never decreases), and an
already-present hash leaves set and queue untouched. -/
theorem c10_mark_invariants (w : DedupWindow) (tx : NormalizedTransaction)
    (hw : WindowInv w) :
    WindowInv (markTransactionProcessed w tx) ∧
    (markTransactionProcessed w tx).latestTimestampMs =
      some (max (w.latestTimestampMs.getD 0) (effectiveTimestamp tx)) ∧
    (∀ v, w.latestTimestampMs = some v →
      ∃ v', (markTransactionProcessed w tx).latestTimestampMs = some v' ∧ v ≤ v') ∧
    (tx.txHash ∈ w.processedTxHashes →
      (markTransactionProcessed w tx).processedTxQueue = w.processedTxQueue ∧
      (markTransactionProcessed w tx).processedTxHashes = w.processedTxHashes) := by
  obtain ⟨hperm, hnd, hlen⟩ := hw
  have hmax : ∀ v, w.latestTimestampMs = some v →
      ∃ v', some (max (w.latestTimestampMs.getD 0) (effectiveTimestamp tx)) = some v' ∧
        v ≤ v' := by
    intro v hv
    exact ⟨_, rfl, by rw [hv]; exact le_max_of_le_left (by simp)⟩
  by_cases hc : tx.txHash ∈ w.processedTxHashes
  · rw [mark_already_present w tx hc]
    exact ⟨⟨hperm, hnd, hlen⟩, rfl, hmax, fun _ => ⟨rfl, rfl⟩⟩
  · have hcq : tx.txHash ∉ w.processedTxQueue := fun h => hc (hperm.mem_iff.mpr h)
    have hnd' : (w.processedTxQueue ++ [tx.txHash]).Nodup := by
      simp [List.nodup_append, hnd, hcq]
    by_cases hover : processedTxCacheLimit < w.processedTxQueue.length + 1
    · rw [mark_new_evict w tx hc hover]
      cases hq : w.processedTxQueue ++ [tx.txHash] with
      | nil => simp at hq
      | cons oldest rest =>
        simp only [List.headD_cons, List.tail_cons]
        refine ⟨⟨?_, ?_, ?_⟩, trivial, hmax, fun h => absurd h hc⟩
        · have h1 : (w.processedTxHashes ++ [tx.txHash]).Perm (oldest :: rest) := by
            rw [← hq]; exact hperm.append_right _
          have h2 := h1.erase oldest
          rwa [List.erase_cons_head] at h2
        · rw [hq] at hnd'
          exact List.Nodup.of_cons hnd'
        · have hlq : (oldest :: rest).length = w.processedTxQueue.length + 1 := by
            rw [← hq]; simp
          simp only [List.length_cons] at hlq
          show rest.length ≤ processedTxCacheLimit
          omega
    · rw [mark_new_no_evict w tx hc (by omega)]
      refine ⟨⟨hperm.append_right _, hnd', ?_⟩, rfl, hmax, fun h => absurd h hc⟩
      simp only [List.length_append, List.length_cons, List.length_nil]
      omega

/-- Claim C10 witness: marking a transaction into the empty window preserves
the invariants, records the advanced high-water-mark and satisfies the
already-present clause vacuously. -/
theorem c10_mark_invariants_witness :
    WindowInv emptyWindow ∧
    (WindowInv (markTransactionProcessed emptyWindow { txHash := "Y", timestampMs := some 3 }) ∧
      (markTransactionProcessed emptyWindow { txHash := "Y", timestampMs := some 3 }).latestTimestampMs =
        some (max ((emptyWindow.latestTimestampMs).getD 0)
          (effectiveTimestamp { txHash := "Y", timestampMs := some 3 })) ∧
      (∀ v, emptyWindow.latestTimestampMs = some v →
        ∃ v', (markTransactionProcessed emptyWindow { txHash := "Y", timestampMs := some 3 }).latestTimestampMs =
          some v' ∧ v ≤ v') ∧
      (("Y" : String) ∈ emptyWindow.processedTxHashes →
        (markTransactionProcessed emptyWindow { txHash := "Y", timestampMs := some 3 }).processedTxQueue =
          emptyWindow.processedTxQueue ∧
        (markTransactionProcessed emptyWindow { txHash := "Y", timestampMs := some 3 }).processedTxHashes =
          emptyWindow.processedTxHashes)) :=
  ⟨⟨List.Perm.refl _, List.nodup_nil, by decide⟩,
    c10_mark_invariants emptyWindow { txHash := "Y", timestampMs := some 3 }
      ⟨List.Perm.refl _, List.nodup_nil, by decide⟩⟩

instance : IsTotal NormalizedTransaction (fun a b => txTimestampKey a ≤ txTimestampKey b) :=
  ⟨fun a b => Int.le_total (txTimestampKey a) (txTimestampKey b)⟩

instance : IsTrans NormalizedTransaction (fun a b => txTimestampKey a ≤ txTimestampKey b) :=
  ⟨fun _ _ _ h1 h2 => le_trans h1 h2⟩

lemma fetchPipeline_eq (addr : String) (data : List RawTransaction) :
    fetchRecentTransactionsPipeline addr data =
      List.insertionSort (fun a b => txTimestampKey a ≤ txTimestampKey b)
        ((data.filterMap normalizeRawTransaction).filter
          (fun tx => matchesContract addr tx.receiver)) := by
  unfold fetchRecentTransactionsPipeline
  cases data with
  | nil => simp
  | cons x xs => rfl

/-- Claim C7: the Fetcher's output holds exactly the normalizable records
addressed (case-insensitively) to the watched contract, sorted ascending by
`timestampMs` with an absent timestamp treated as 0; feeding the batch in
reversed order yields a permutation of the same output that is again sorted
by the same key, so for any two transactions with distinct timestamps — in
particular a join and a workout of the same sender — the earlier one is
applied first either way. -/
theorem c7_fetcher_filters_and_sorts (addr : String) (data : List RawTransaction) :
    (∀ ntx, ntx ∈ fetchRecentTransactionsPipeline addr data ↔
      ∃ raw ∈ data, normalizeRawTransaction raw = some ntx ∧
        matchesContract addr ntx.receiver = true) ∧
    List.Sorted (fun a b => txTimestampKey a ≤ txTimestampKey b)
      (fetchRecentTransactionsPipeline addr data) ∧
    (fetchRecentTransactionsPipeline addr data.reverse).Perm
      (fetchRecentTransactionsPipeline addr data) ∧
    List.Sorted (fun a b => txTimestampKey a ≤ txTimestampKey b)
      (fetchRecentTransactionsPipeline addr data.reverse) := by
  refine ⟨?_, ?_, ?_, ?_⟩
  · intro ntx
    rw [fetchPipeline_eq]
    simp only [List.mem_insertionSort, List.mem_filter, List.mem_filterMap]
    tauto
  · rw [fetchPipeline_eq]
    exact List.sorted_insertionSort _ _
  · rw [fetchPipeline_eq, fetchPipeline_eq]
    simp only [List.filterMap_reverse, List.filter_reverse]
    exact ((List.perm_insertionSort _ _).trans (List.reverse_perm _)).trans
      (List.perm_insertionSort _ _).symm
  · rw [fetchPipeline_eq]
    exact List.sorted_insertionSort _ _

lemma getActiveChallenge_some (cs : List Challenge) (c : Challenge)
    (h : getActiveChallenge cs = some c) : c ∈ cs ∧ c.active = true := by
  unfold getActiveChallenge at h
  have hm : c ∈ List.insertionSort (fun a b => b.startTimestamp ≤ a.startTimestamp)
      (cs.filter (fun c => c.active)) :=
    List.mem_of_mem_head? (by rw [h]; exact rfl)
  rw [List.mem_insertionSort] at hm
  exact List.mem_filter.mp hm

lemma getActiveChallenge_none_iff (cs : List Challenge) :
    getActiveChallenge cs = none ↔ cs.filter (fun c => c.active) = [] := by
  unfold getActiveChallenge
  rw [List.head?_eq_none_iff]
  constructor
  · intro h
    have hp := List.perm_insertionSort (fun a b => b.startTimestamp ≤ a.startTimestamp)
      (cs.filter (fun c => c.active))
    rw [h] at hp
    exact (hp.symm.eq_nil)
  · intro h
    rw [h]
    rfl

lemma deactivate_id (c : Challenge) (txh : String) :
    (if c.active then { c with active := false, lastUpdatedTxHash := txh } else c).id
      = c.id := by
  split <;> rfl

lemma deactivate_inactive (c : Challenge) (txh : String) :
    (if c.active then { c with active := false, lastUpdatedTxHash := txh } else c).active
      = false := by
  cases hc : c.active <;> simp [hc]

lemma create_effect_atMostOne (cs : List Challenge) (e : Challenge) (txh : String)
    (hact : e.active = true) (hid : e.id = txh)
    (hex : cs.any (fun c => c.id == txh) = false) :
    atMostOneActive (saveChallenge
      (cs.map (fun c =>
        if c.active then { c with active := false, lastUpdatedTxHash := txh } else c))
      e) := by
  have hexf := List.any_eq_false.mp hex
  have hany : (cs.map (fun c =>
      if c.active then { c with active := false, lastUpdatedTxHash := txh } else c)).any
        (fun x => x.id == e.id) = false := by
    rw [List.any_eq_false]
    intro x hx
    obtain ⟨c, hc, rfl⟩ := List.mem_map.mp hx
    rw [deactivate_id, hid]
    exact hexf c hc
  unfold atMostOneActive saveChallenge
  rw [hany]
  simp only [Bool.false_eq_true, if_false, List.countP_append]
  have h0 : (cs.map (fun c =>
      if c.active then { c with active := false, lastUpdatedTxHash := txh } else c)).countP
        (fun c => c.active) = 0 := by
    rw [List.countP_eq_zero]
    intro a ha
    obtain ⟨c, hc, rfl⟩ := List.mem_map.mp ha
    simp [deactivate_inactive]
  rw [h0]
  simp [List.countP_cons, hact]

lemma save_inactive_countP_le (cs : List Challenge) (c c' : Challenge)
    (hmem : c ∈ cs) (hid : c'.id = c.id) (hact' : c'.active = false) :
    (saveChallenge cs c').countP (fun x => x.active) ≤
      cs.countP (fun x => x.active) := by
  unfold saveChallenge
  have hany : cs.any (fun x => x.id == c'.id) = true :=
    List.any_eq_true.mpr ⟨c, hmem, by rw [hid]; exact beq_self_eq_true _⟩
  rw [hany]
  simp only [if_true]
  rw [List.countP_map]
  apply List.countP_mono_left
  intro x hx hpx
  simp only [Function.comp_apply, beq_iff_eq] at hpx
  by_cases hxid : x.id = c'.id
  · rw [if_pos hxid, hact'] at hpx
    exact absurd hpx (by simp)
  · rwa [if_neg hxid] at hpx

lemma create_preserves_atMostOne (db : DBState) (tx : NormalizedTransaction)
    (args : List String) (h : atMostOneActive db.challenges) :
    atMostOneActive (handleChallengeCreated db tx args).challenges := by
  unfold handleChallengeCreated
  by_cases hex : db.challenges.any (fun c => c.id == tx.txHash) = true
  · rw [if_pos hex]
    exact h
  · rw [if_neg hex]
    cases h0 : parseHexToBigInt args[0]? with
    | none => exact h
    | some start =>
      cases h1 : parseHexToBigInt args[1]? with
      | none => exact h
      | some endTs =>
        exact create_effect_atMostOne db.challenges _ tx.txHash rfl rfl
          (Bool.eq_false_iff.mpr (fun hh => hex hh))

lemma close_countP_le (db : DBState) (tx : NormalizedTransaction) :
    (handleChallengeClosed db tx).challenges.countP (fun c => c.active) ≤
      db.challenges.countP (fun c => c.active) := by
  unfold handleChallengeClosed
  split
  · exact le_refl _
  · rename_i c hg
    split
    · exact le_refl _
    · obtain ⟨hmem, hact⟩ := getActiveChallenge_some db.challenges c hg
      exact save_inactive_countP_le db.challenges c _ hmem rfl rfl

/-- Claim C1: starting from a challenges table with at most one active row,
any sequence of `createChallenge` / `closeChallenge` effects leaves at most
one Challenge active — `handleChallengeCreated` deactivates every active
challenge before inserting the new active one, and `handleChallengeClosed`
only deactivates. -/
theorem c1_at_most_one_active (db : DBState) (effs : List ChallengeEffect)
    (hdb : atMostOneActive db.challenges) :
    atMostOneActive ((effs.foldl applyChallengeEffect db).challenges) := by
  induction effs generalizing db with
  | nil => exact hdb
  | cons e rest ih =>
    rw [List.foldl_cons]
    apply ih
    cases e with
    | created tx args => exact create_preserves_atMostOne db tx args hdb
    | closed tx =>
      show atMostOneActive (handleChallengeClosed db tx).challenges
      have hle := close_countP_le db tx
      unfold atMostOneActive at hdb ⊢
      omega

/-- Claim C1 witness: from the sample single-active-challenge table, a
create effect followed by a close effect leaves at most one active row. -/
theorem c1_at_most_one_active_witness :
    atMostOneActive sampleDB.challenges ∧
    atMostOneActive
      (([ChallengeEffect.created (submitTxOf "B" "bob") ["1", "2"],
         ChallengeEffect.closed (submitTxOf "C" "bob")].foldl
        applyChallengeEffect sampleDB).challenges) :=
  ⟨show sampleDB.challenges.countP (fun c => c.active) ≤ 1 by decide,
    c1_at_most_one_active sampleDB
      [ChallengeEffect.created (submitTxOf "B" "bob") ["1", "2"],
       ChallengeEffect.closed (submitTxOf "C" "bob")]
      (show sampleDB.challenges.countP (fun c => c.active) ≤ 1 by decide)⟩

lemma processNovel_window (attempt : DBState → NormalizedTransaction → DBState × Bool)
    (txs : List NormalizedTransaction) :
    ∀ (db : DBState) (w : DedupWindow),
    (processNovelTransactions attempt db w txs).2 =
      txs.foldl markTransactionProcessed w := by
  induction txs with
  | nil => intro db w; rfl
  | cons tx rest ih =>
    intro db w
    rw [List.foldl_cons]
    exact ih _ _

lemma processNovel_db_failures (fails : NormalizedTransaction → Bool)
    (txs : List NormalizedTransaction) :
    ∀ (db : DBState) (w : DedupWindow),
    (processNovelTransactions (attemptWithFailures fails) db w txs).1 =
      (txs.filter (fun tx => !fails tx)).foldl dispatchTransaction db := by
  induction txs with
  | nil => intro db w; rfl
  | cons tx rest ih =>
    intro db w
    show (processNovelTransactions (attemptWithFailures fails)
      (attemptWithFailures fails db tx).1 (markTransactionProcessed w tx) rest).1 = _
    by_cases hf : fails tx = true
    · rw [show (attemptWithFailures fails db tx).1 = db by
        simp [attemptWithFailures, hf]]
      rw [show (tx :: rest).filter (fun t => !fails t) = rest.filter (fun t => !fails t) by
        simp [List.filter_cons, hf]]
      exact ih _ _
    · rw [show (attemptWithFailures fails db tx).1 = dispatchTransaction db tx by
        simp [attemptWithFailures, hf]]
      rw [show (tx :: rest).filter (fun t => !fails t) =
          tx :: rest.filter (fun t => !fails t) by
        simp [List.filter_cons, hf]]
      rw [List.foldl_cons]
      exact ih _ _

/-- Claim C6: when the per-transaction `try` block throws for the
transactions selected by `fails` (e.g. persistence errors), the loop neither
aborts nor skips the dedup bookkeeping — the final window is the fold of
`markTransactionProcessed` over the whole batch, identical to the all-success
run, and the database state is the fold of the dispatcher over exactly the
non-failing transactions, so the rest of the batch is still processed. -/
theorem c6_failure_isolation (fails : NormalizedTransaction → Bool) (db : DBState)
    (w : DedupWindow) (txs : List NormalizedTransaction) :
    (processNovelTransactions (attemptWithFailures fails) db w txs).2 =
      txs.foldl markTransactionProcessed w ∧
    (processNovelTransactions (attemptWithFailures fails) db w txs).2 =
      (processNovelTransactions attemptOk db w txs).2 ∧
    (processNovelTransactions (attemptWithFailures fails) db w txs).1 =
      (txs.filter (fun tx => !fails tx)).foldl dispatchTransaction db :=
  ⟨processNovel_window _ txs db w,
    by rw [processNovel_window, processNovel_window],
    processNovel_db_failures fails txs db w⟩

lemma participantKeyMatches_self (p : Participant) :
    participantKeyMatches p.challengeId p.address p = true := by
  simp [participantKeyMatches]

lemma find?_map_replace (K : Participant → Bool) (p : Participant) (hp : K p = true) :
    ∀ ps : List Participant, ps.any K = true →
      (ps.map (fun x => if K x then p else x)).find? K = some p := by
  intro ps
  induction ps with
  | nil => intro h; simp at h
  | cons x rest ih =>
    intro h
    by_cases hx : K x = true
    · simp only [List.map_cons, hx, if_true]
      exact List.find?_cons_of_pos _ hp
    · simp only [List.map_cons, hx, if_false, Bool.false_eq_true]
      rw [List.find?_cons_of_neg _ (by simp [hx])]
      apply ih
      simp only [List.any_cons, hx, Bool.false_or] at h
      exact h

lemma find?_append_single (K : Participant → Bool) (p : Participant) (hp : K p = true)
    (ps : List Participant) (h : ps.any K = false) :
    (ps ++ [p]).find? K = some p := by
  rw [List.find?_append]
  rw [List.find?_eq_none.mpr (fun x hx => by simp [List.any_eq_false.mp h x hx])]
  simp [hp]

lemma findParticipant_save_self (ps : List Participant) (p : Participant) :
    findParticipant (saveParticipant ps p) p.challengeId p.address = some p := by
  unfold findParticipant saveParticipant
  by_cases hany : ps.any (participantKeyMatches p.challengeId p.address) = true
  · rw [if_pos hany]
    exact find?_map_replace _ p (participantKeyMatches_self p) ps hany
  · rw [if_neg hany]
    exact find?_append_single _ p (participantKeyMatches_self p) ps
      (Bool.eq_false_iff.mpr hany)

lemma find?_map_replace_ne (K K' : Participant → Bool) (p : Participant)
    (hK'p : K' p = false) (hdisj : ∀ x, K' x = true → K x = false) :
    ∀ ps : List Participant,
      (ps.map (fun x => if K x then p else x)).find? K' = ps.find? K' := by
  intro ps
  induction ps with
  | nil => rfl
  | cons x rest ih =>
    by_cases hx : K x = true
    · have hK'x : K' x = false := by
        by_contra hcon
        have := hdisj x (Bool.of_not_eq_false hcon)
        rw [hx] at this
        exact absurd this (by decide)
      simp only [List.map_cons, hx, if_true]
      rw [List.find?_cons_of_neg _ (by simp [hK'p]),
        List.find?_cons_of_neg _ (by simp [hK'x])]
      exact ih
    · simp only [List.map_cons, hx, if_false, Bool.false_eq_true]
      by_cases hK'x : K' x = true
      · rw [List.find?_cons_of_pos _ hK'x, List.find?_cons_of_pos _ hK'x]
      · rw [List.find?_cons_of_neg _ (by simp [hK'x]),
          List.find?_cons_of_neg _ (by simp [hK'x])]
        exact ih

lemma findParticipant_save_ne (ps : List Participant) (p : Participant)
    (cid addr : String) (hne : ¬(p.challengeId = cid ∧ p.address = addr)) :
    findParticipant (saveParticipant ps p) cid addr = findParticipant ps cid addr := by
  have hKp : participantKeyMatches cid addr p = false := by
    simp only [participantKeyMatches, Bool.and_eq_false_iff, beq_eq_false_iff_ne]
    by_cases h1 : p.challengeId = cid
    · exact Or.inr (fun h2 => hne ⟨h1, h2⟩)
    · exact Or.inl h1
  have hdisj : ∀ x, participantKeyMatches cid addr x = true →
      participantKeyMatches p.challengeId p.address x = false := by
    intro x hx
    simp only [participantKeyMatches, Bool.and_eq_true, beq_iff_eq] at hx
    simp only [participantKeyMatches, Bool.and_eq_false_iff, beq_eq_false_iff_ne]
    by_cases h1 : x.challengeId = p.challengeId
    · refine Or.inr (fun h2 => hne ⟨?_, ?_⟩)
      · rw [← h1, hx.1]
      · rw [← h2, hx.2]
    · exact Or.inl h1
  unfold findParticipant saveParticipant
  by_cases hany : ps.any (participantKeyMatches p.challengeId p.address) = true
  · rw [if_pos hany]
    exact find?_map_replace_ne _ _ p hKp hdisj ps
  · rw [if_neg hany]
    rw [List.find?_append]
    rw [show List.find? (participantKeyMatches cid addr) [p] = none by simp [hKp]]
    exact Option.or_none

lemma countP_ge_two_of_two_mem {α : Type} (p : α → Bool) {l : List α} {a b : α}
    (ha : a ∈ l) (hb : b ∈ l) (hne : a ≠ b) (hpa : p a = true) (hpb : p b = true) :
    2 ≤ l.countP p := by
  induction l with
  | nil => simp at ha
  | cons x rest ih =>
    rw [List.countP_cons]
    rcases List.mem_cons.mp ha with rfl | ha'
    · rcases List.mem_cons.mp hb with heq | hb'
      · exact absurd heq.symm hne
      · have h1 : 0 < rest.countP p := List.countP_pos_iff.mpr ⟨b, hb', hpb⟩
        rw [hpa]
        simp only [if_true]
        omega
    · rcases List.mem_cons.mp hb with rfl | hb'
      · have h1 : 0 < rest.countP p := List.countP_pos_iff.mpr ⟨a, ha', hpa⟩
        rw [hpb]
        simp only [if_true]
        omega
      · have h2 := ih ha' hb'
        by_cases hx : p x = true
        · simp only [hx, if_true]
          omega
        · simp only [hx, if_false]
          omega

lemma saveChallenge_mem (cs : List Challenge) (c : Challenge) :
    c ∈ saveChallenge cs c := by
  unfold saveChallenge
  by_cases hany : cs.any (fun x => x.id == c.id) = true
  · rw [if_pos hany]
    obtain ⟨x, hx, hxid⟩ := List.any_eq_true.mp hany
    exact List.mem_map.mpr ⟨x, hx, by rw [if_pos hxid]⟩
  · rw [if_neg hany]
    exact List.mem_append_right _ (List.mem_singleton.mpr rfl)

lemma create_skip_eq (db : DBState) (tx : NormalizedTransaction) (args : List String)
    (h : parseHexToBigInt args[0]? = none ∨ parseHexToBigInt args[1]? = none)
    (hex : ¬ db.challenges.any (fun c => c.id == tx.txHash) = true) :
    handleChallengeCreated db tx args = db := by
  unfold handleChallengeCreated
  rw [if_neg hex]
  cases h0 : parseHexToBigInt args[0]? <;> cases h1 : parseHexToBigInt args[1]? <;>
    first
      | rfl
      | (exfalso; rcases h with h | h <;> simp_all)

lemma create_effect_eq (db : DBState) (tx : NormalizedTransaction) (args : List String)
    (start endTs : Nat)
    (hex : ¬ db.challenges.any (fun c => c.id == tx.txHash) = true)
    (h0 : parseHexToBigInt args[0]? = some start)
    (h1 : parseHexToBigInt args[1]? = some endTs) :
    handleChallengeCreated db tx args =
      { challenges := saveChallenge
          (db.challenges.map (fun c =>
            if c.active then { c with active := false, lastUpdatedTxHash := tx.txHash }
            else c))
          (createdEntity tx args start endTs),
        participants := db.participants } := by
  unfold handleChallengeCreated
  rw [if_neg hex, h0, h1]
  rfl

lemma create_idem (db : DBState) (tx : NormalizedTransaction) (args : List String) :
    handleChallengeCreated (handleChallengeCreated db tx args) tx args =
      handleChallengeCreated db tx args := by
  by_cases hex : db.challenges.any (fun c => c.id == tx.txHash) = true
  · have h1 : handleChallengeCreated db tx args = db := by
      unfold handleChallengeCreated
      rw [if_pos hex]
    rw [h1]
    exact h1
  · cases h0 : parseHexToBigInt args[0]? with
    | none =>
      have h1 := create_skip_eq db tx args (Or.inl h0) hex
      rw [h1]
      exact h1
    | some start =>
      cases h1 : parseHexToBigInt args[1]? with
      | none =>
        have h2 := create_skip_eq db tx args (Or.inr h1) hex
        rw [h2]
        exact h2
      | some endTs =>
        have heq := create_effect_eq db tx args start endTs hex h0 h1
        rw [heq]
        have hany : (saveChallenge
            (db.challenges.map (fun c =>
              if c.active then { c with active := false, lastUpdatedTxHash := tx.txHash }
              else c))
            (createdEntity tx args start endTs)).any
              (fun c => c.id == tx.txHash) = true :=
          List.any_eq_true.mpr ⟨createdEntity tx args start endTs,
            saveChallenge_mem _ _, beq_self_eq_true tx.txHash⟩
        unfold handleChallengeCreated
        rw [if_pos hany]

lemma close_effect_eq (db : DBState) (tx : NormalizedTransaction) (c : Challenge)
    (hg : getActiveChallenge db.challenges = some c)
    (hlu : ¬ (c.lastUpdatedTxHash == tx.txHash) = true) :
    handleChallengeClosed db tx =
      { challenges := saveChallenge db.challenges (closedEntity c tx),
        participants := db.participants } := by
  unfold handleChallengeClosed
  simp only [hg, if_neg hlu]
  rfl

lemma close_idem (db : DBState) (tx : NormalizedTransaction)
    (hdb : atMostOneActive db.challenges) :
    handleChallengeClosed (handleChallengeClosed db tx) tx =
      handleChallengeClosed db tx := by
  cases hg : getActiveChallenge db.challenges with
  | none =>
    have h1 : handleChallengeClosed db tx = db := by
      unfold handleChallengeClosed
      rw [hg]
    rw [h1]
    exact h1
  | some c =>
    by_cases hlu : (c.lastUpdatedTxHash == tx.txHash) = true
    · have h1 : handleChallengeClosed db tx = db := by
        unfold handleChallengeClosed
        simp only [hg, if_pos hlu]
      rw [h1]
      exact h1
    · obtain ⟨hmem, hact⟩ := getActiveChallenge_some db.challenges c hg
      have h1 := close_effect_eq db tx c hg hlu
      have hnone : getActiveChallenge
          (saveChallenge db.challenges (closedEntity c tx)) = none := by
        rw [getActiveChallenge_none_iff, List.filter_eq_nil_iff]
        intro a ha
        have hany : db.challenges.any (fun x => x.id == (closedEntity c tx).id) = true :=
          List.any_eq_true.mpr ⟨c, hmem, beq_self_eq_true c.id⟩
        unfold saveChallenge at ha
        rw [if_pos hany] at ha
        obtain ⟨x, hxmem, hfx⟩ := List.mem_map.mp ha
        by_cases hxid : (x.id == (closedEntity c tx).id) = true
        · rw [if_pos hxid] at hfx
          rw [← hfx]
          show ¬ (closedEntity c tx).active = true
          simp [closedEntity]
        · rw [if_neg hxid] at hfx
          rw [← hfx]
          intro hxact
          have hxc : x ≠ c := by
            intro hcc
            rw [hcc] at hxid
            exact hxid (beq_self_eq_true c.id)
          have h2 := countP_ge_two_of_two_mem (fun y => y.active) hxmem hmem hxc hxact hact
          unfold atMostOneActive at hdb
          omega
      rw [h1]
      unfold handleChallengeClosed
      simp only [hnone]

lemma join_skip_sender (db : DBState) (tx : NormalizedTransaction)
    (hs : tx.sender = none) : handleJoinChallenge db tx = db := by
  unfold handleJoinChallenge
  rw [hs]

lemma join_skip_noactive (db : DBState) (tx : NormalizedTransaction) (sender : String)
    (hs : tx.sender = some sender) (hg : getActiveChallenge db.challenges = none) :
    handleJoinChallenge db tx = db := by
  unfold handleJoinChallenge
  simp only [hs, hg]

lemma join_guard_eq (db : DBState) (tx : NormalizedTransaction) (sender : String)
    (ch : Challenge) (hs : tx.sender = some sender)
    (hg : getActiveChallenge db.challenges = some ch)
    (hguard : ((findParticipant db.participants ch.id sender).map
      (fun p => p.joinTxHash) == some tx.txHash) = true) :
    handleJoinChallenge db tx = db := by
  unfold handleJoinChallenge
  simp only [hs, hg, if_pos hguard]

lemma join_effect_eq (db : DBState) (tx : NormalizedTransaction) (sender : String)
    (ch : Challenge) (hs : tx.sender = some sender)
    (hg : getActiveChallenge db.challenges = some ch)
    (hguard : ¬ ((findParticipant db.participants ch.id sender).map
      (fun p => p.joinTxHash) == some tx.txHash) = true) :
    handleJoinChallenge db tx =
      { challenges := db.challenges,
        participants := saveParticipant db.participants
          (joinPayload ch sender tx (findParticipant db.participants ch.id sender)) } := by
  unfold handleJoinChallenge
  simp only [hs, hg, if_neg hguard]
  rfl

lemma join_idem (db : DBState) (tx : NormalizedTransaction) :
    handleJoinChallenge (handleJoinChallenge db tx) tx = handleJoinChallenge db tx := by
  cases hs : tx.sender with
  | none =>
    have h1 := join_skip_sender db tx hs
    rw [h1]
    exact h1
  | some sender =>
    cases hg : getActiveChallenge db.challenges with
    | none =>
      have h1 := join_skip_noactive db tx sender hs hg
      rw [h1]
      exact h1
    | some ch =>
      by_cases hguard : ((findParticipant db.participants ch.id sender).map
          (fun p => p.joinTxHash) == some tx.txHash) = true
      · have h1 := join_guard_eq db tx sender ch hs hg hguard
        rw [h1]
        exact h1
      · have h1 := join_effect_eq db tx sender ch hs hg hguard
        rw [h1]
        have hfind : findParticipant
            (saveParticipant db.participants
              (joinPayload ch sender tx (findParticipant db.participants ch.id sender)))
            ch.id sender =
            some (joinPayload ch sender tx (findParticipant db.participants ch.id sender)) :=
          findParticipant_save_self _ _
        refine join_guard_eq _ tx sender ch hs ?_ ?_
        · exact hg
        · rw [hfind]
          exact beq_self_eq_true (some tx.txHash)

lemma submit_skip_sender (db : DBState) (tx : NormalizedTransaction)
    (args : List String) (hs : tx.sender = none) :
    handleWorkoutSubmitted db tx args = db := by
  unfold handleWorkoutSubmitted
  rw [hs]

lemma submit_skip_noactive (db : DBState) (tx : NormalizedTransaction)
    (args : List String) (sender : String) (hs : tx.sender = some sender)
    (hg : getActiveChallenge db.challenges = none) :
    handleWorkoutSubmitted db tx args = db := by
  unfold handleWorkoutSubmitted
  simp only [hs, hg]

lemma submit_skip_nopoints (db : DBState) (tx : NormalizedTransaction)
    (args : List String) (sender : String) (ch : Challenge)
    (hs : tx.sender = some sender) (hg : getActiveChallenge db.challenges = some ch)
    (hp : parseHexToBigInt args[0]? = none) :
    handleWorkoutSubmitted db tx args = db := by
  unfold handleWorkoutSubmitted
  simp only [hs, hg, hp]

lemma submit_guard_eq (db : DBState) (tx : NormalizedTransaction)
    (args : List String) (sender : String) (ch : Challenge) (points : Nat)
    (hs : tx.sender = some sender) (hg : getActiveChallenge db.challenges = some ch)
    (hp : parseHexToBigInt args[0]? = some points)
    (hguard : ((findParticipant db.participants ch.id sender).bind
      (fun p => p.lastUpdateTxHash) == some tx.txHash) = true) :
    handleWorkoutSubmitted db tx args = db := by
  unfold handleWorkoutSubmitted
  simp only [hs, hg, hp, if_pos hguard]

lemma submit_effect_eq (db : DBState) (tx : NormalizedTransaction)
    (args : List String) (sender : String) (ch : Challenge) (points : Nat)
    (hs : tx.sender = some sender) (hg : getActiveChallenge db.challenges = some ch)
    (hp : parseHexToBigInt args[0]? = some points)
    (hguard : ¬ ((findParticipant db.participants ch.id sender).bind
      (fun p => p.lastUpdateTxHash) == some tx.txHash) = true) :
    handleWorkoutSubmitted db tx args =
      { challenges := db.challenges,
        participants := saveParticipant db.participants
          (submitPayload ch sender tx points
            (findParticipant db.participants ch.id sender)) } := by
  unfold handleWorkoutSubmitted
  simp only [hs, hg, hp, if_neg hguard]
  rfl

lemma submit_idem (db : DBState) (tx : NormalizedTransaction) (args : List String) :
    handleWorkoutSubmitted (handleWorkoutSubmitted db tx args) tx args =
      handleWorkoutSubmitted db tx args := by
  cases hs : tx.sender with
  | none =>
    have h1 := submit_skip_sender db tx args hs
    rw [h1]
    exact h1
  | some sender =>
    cases hg : getActiveChallenge db.challenges with
    | none =>
      have h1 := submit_skip_noactive db tx args sender hs hg
      rw [h1]
      exact h1
    | some ch =>
      cases hp : parseHexToBigInt args[0]? with
      | none =>
        have h1 := submit_skip_nopoints db tx args sender ch hs hg hp
        rw [h1]
        exact h1
      | some points =>
        by_cases hguard : ((findParticipant db.participants ch.id sender).bind
            (fun p => p.lastUpdateTxHash) == some tx.txHash) = true
        · have h1 := submit_guard_eq db tx args sender ch points hs hg hp hguard
          rw [h1]
          exact h1
        · have h1 := submit_effect_eq db tx args sender ch points hs hg hp hguard
          rw [h1]
          have hfind : findParticipant
              (saveParticipant db.participants
                (submitPayload ch sender tx points
                  (findParticipant db.participants ch.id sender)))
              ch.id sender =
              some (submitPayload ch sender tx points
                (findParticipant db.participants ch.id sender)) :=
            findParticipant_save_self _ _
          refine submit_guard_eq _ tx args sender ch points hs ?_ hp ?_
          · exact hg
          · rw [hfind]
            exact beq_self_eq_true (some tx.txHash)

/-- Claim C2 counterexample: replaying the same `submitWorkout` transaction
`X` (5 points) after an intervening submission `Z` of the same sender is NOT
idempotent — the guard only compares the participant's most recent
`lastUpdateTxHash`, which `Z` has overwritten, so the points of `X` are added
a second time (score 13 instead of 8). -/
theorem c2_replay_with_interleaving_counterexample :
    handleWorkoutSubmitted
      (handleWorkoutSubmitted
        (handleWorkoutSubmitted sampleDB (submitTxOf "X" "alice") ["5"])
        (submitTxOf "Z" "alice") ["3"])
      (submitTxOf "X" "alice") ["5"] ≠
    handleWorkoutSubmitted
      (handleWorkoutSubmitted sampleDB (submitTxOf "X" "alice") ["5"])
      (submitTxOf "Z" "alice") ["3"] := by
  decide

/-- Claim C2 (amended): each of the four effect handlers is idempotent
against immediate replay of the same transaction — applying the handler twice
in direct succession equals applying it once, which also covers a Dedup
Window reset between the two applications since no handler consults the
window (for `closeChallenge` this relies on the at-most-one-active invariant
of reachable states).  With other transactions applied between the two
occurrences the claim fails (see the counterexample): the close/join/submit
guards compare only the most recent update's hash. -/
theorem c2_handlers_idempotent_amended (db : DBState) (tx : NormalizedTransaction)
    (args : List String) (hdb : atMostOneActive db.challenges) :
    handleChallengeCreated (handleChallengeCreated db tx args) tx args =
      handleChallengeCreated db tx args ∧
    handleChallengeClosed (handleChallengeClosed db tx) tx =
      handleChallengeClosed db tx ∧
    handleJoinChallenge (handleJoinChallenge db tx) tx =
      handleJoinChallenge db tx ∧
    handleWorkoutSubmitted (handleWorkoutSubmitted db tx args) tx args =
      handleWorkoutSubmitted db tx args :=
  ⟨create_idem db tx args, close_idem db tx hdb, join_idem db tx,
    submit_idem db tx args⟩

/-- Claim C2 witness: immediate replay of a concrete `submitWorkout`
transaction (and of the other three handlers on the same inputs) over the
sample database is idempotent. -/
theorem c2_handlers_idempotent_amended_witness :
    atMostOneActive sampleDB.challenges ∧
    (handleChallengeCreated
        (handleChallengeCreated sampleDB (submitTxOf "X" "alice") ["5"])
        (submitTxOf "X" "alice") ["5"] =
      handleChallengeCreated sampleDB (submitTxOf "X" "alice") ["5"] ∧
    handleChallengeClosed
        (handleChallengeClosed sampleDB (submitTxOf "X" "alice"))
        (submitTxOf "X" "alice") =
      handleChallengeClosed sampleDB (submitTxOf "X" "alice") ∧
    handleJoinChallenge
        (handleJoinChallenge sampleDB (submitTxOf "X" "alice"))
        (submitTxOf "X" "alice") =
      handleJoinChallenge sampleDB (submitTxOf "X" "alice") ∧
    handleWorkoutSubmitted
        (handleWorkoutSubmitted sampleDB (submitTxOf "X" "alice") ["5"])
        (submitTxOf "X" "alice") ["5"] =
      handleWorkoutSubmitted sampleDB (submitTxOf "X" "alice") ["5"]) :=
  ⟨show sampleDB.challenges.countP (fun c => c.active) ≤ 1 by decide,
    c2_handlers_idempotent_amended sampleDB (submitTxOf "X" "alice") ["5"]
      (show sampleDB.challenges.countP (fun c => c.active) ≤ 1 by decide)⟩

lemma scoreOf_mk (cs : List Challenge) (ps : List Participant) (cid addr : String) :
    scoreOf { challenges := cs, participants := ps } cid addr =
      ((findParticipant ps cid addr).map (fun p => p.score)).getD 0 := rfl

lemma submit_challenges_eq (db : DBState) (tx : NormalizedTransaction)
    (args : List String) :
    (handleWorkoutSubmitted db tx args).challenges = db.challenges := by
  cases hs : tx.sender with
  | none => rw [submit_skip_sender db tx args hs]
  | some sender =>
    cases hg : getActiveChallenge db.challenges with
    | none => rw [submit_skip_noactive db tx args sender hs hg]
    | some ch =>
      cases hp : parseHexToBigInt args[0]? with
      | none => rw [submit_skip_nopoints db tx args sender ch hs hg hp]
      | some points =>
        by_cases hguard : ((findParticipant db.participants ch.id sender).bind
            (fun p => p.lastUpdateTxHash) == some tx.txHash) = true
        · rw [submit_guard_eq db tx args sender ch points hs hg hp hguard]
        · rw [submit_effect_eq db tx args sender ch points hs hg hp hguard]

lemma submit_score_mono (db : DBState) (tx : NormalizedTransaction)
    (args : List String) (cid addr : String) :
    scoreOf db cid addr ≤ scoreOf (handleWorkoutSubmitted db tx args) cid addr := by
  cases hs : tx.sender with
  | none => rw [submit_skip_sender db tx args hs]
  | some sender =>
    cases hg : getActiveChallenge db.challenges with
    | none => rw [submit_skip_noactive db tx args sender hs hg]
    | some ch =>
      cases hp : parseHexToBigInt args[0]? with
      | none => rw [submit_skip_nopoints db tx args sender ch hs hg hp]
      | some points =>
        by_cases hguard : ((findParticipant db.participants ch.id sender).bind
            (fun p => p.lastUpdateTxHash) == some tx.txHash) = true
        · rw [submit_guard_eq db tx args sender ch points hs hg hp hguard]
        · rw [submit_effect_eq db tx args sender ch points hs hg hp hguard]
          by_cases hkey : ch.id = cid ∧ sender = addr
          · obtain ⟨rfl, rfl⟩ := hkey
            have hfind : findParticipant
                (saveParticipant db.participants
                  (submitPayload ch sender tx points
                    (findParticipant db.participants ch.id sender)))
                ch.id sender =
                some (submitPayload ch sender tx points
                  (findParticipant db.participants ch.id sender)) :=
              findParticipant_save_self _ _
            rw [scoreOf_mk, scoreOf_mk, hfind]
            exact Nat.le_add_right _ points
          · have hne : ¬ ((submitPayload ch sender tx points
                (findParticipant db.participants ch.id sender)).challengeId = cid ∧
                (submitPayload ch sender tx points
                  (findParticipant db.participants ch.id sender)).address = addr) := hkey
            rw [scoreOf_mk, scoreOf_mk, findParticipant_save_ne _ _ _ _ hne]

lemma applySubmits_take_mono (db : DBState) (a : String)
    (argsOf : String × Nat → List String) (l : List (String × Nat))
    (cid addr : String) (n : Nat) :
    scoreOf (applyWorkoutSubmissions db a argsOf (l.take n)) cid addr ≤
      scoreOf (applyWorkoutSubmissions db a argsOf (l.take (n + 1))) cid addr := by
  unfold applyWorkoutSubmissions
  rw [List.take_succ, List.foldl_append]
  cases h : l[n]? with
  | none => exact Nat.le_refl _
  | some x =>
    show _ ≤ scoreOf (handleWorkoutSubmitted _ (submitTxOf x.1 a) (argsOf x)) cid addr
    exact submit_score_mono _ _ _ _ _

lemma effectiveScoreSum_cons (last : Option String) (x : String × Nat)
    (rest : List (String × Nat)) :
    effectiveScoreSum last (x :: rest) =
      if last = some x.1 then effectiveScoreSum last rest
      else x.2 + effectiveScoreSum (some x.1) rest := rfl

lemma applySubmits_aux (a : String) (ch : Challenge)
    (argsOf : String × Nat → List String) :
    ∀ (l : List (String × Nat)) (db : DBState) (p : Participant),
      getActiveChallenge db.challenges = some ch →
      findParticipant db.participants ch.id a = some p →
      (∀ x ∈ l, parseHexToBigInt (argsOf x)[0]? = some x.2) →
      scoreOf (applyWorkoutSubmissions db a argsOf l) ch.id a =
        p.score + effectiveScoreSum p.lastUpdateTxHash l := by
  intro l
  induction l with
  | nil =>
    intro db p hg hf _
    unfold applyWorkoutSubmissions scoreOf effectiveScoreSum
    simp [hf]
  | cons x rest ih =>
    intro db p hg hf hargs
    have hx := hargs x (List.mem_cons_self x rest)
    have hargs' : ∀ y ∈ rest, parseHexToBigInt (argsOf y)[0]? = some y.2 :=
      fun y hy => hargs y (List.mem_cons_of_mem x hy)
    show scoreOf (applyWorkoutSubmissions
      (handleWorkoutSubmitted db (submitTxOf x.1 a) (argsOf x)) a argsOf rest) ch.id a = _
    by_cases hl : p.lastUpdateTxHash = some x.1
    · have hguard : ((findParticipant db.participants ch.id a).bind
          (fun q => q.lastUpdateTxHash) == some (submitTxOf x.1 a).txHash) = true := by
        rw [hf]
        show (p.lastUpdateTxHash == some x.1) = true
        simp [hl]
      rw [submit_guard_eq db (submitTxOf x.1 a) (argsOf x) a ch x.2 rfl hg hx hguard]
      rw [ih db p hg hf hargs']
      rw [effectiveScoreSum_cons, if_pos hl]
    · have hguard : ¬ ((findParticipant db.participants ch.id a).bind
          (fun q => q.lastUpdateTxHash) == some (submitTxOf x.1 a).txHash) = true := by
        rw [hf]
        show ¬ (p.lastUpdateTxHash == some x.1) = true
        simpa using hl
      rw [submit_effect_eq db (submitTxOf x.1 a) (argsOf x) a ch x.2 rfl hg hx hguard]
      have hfind : findParticipant
          (saveParticipant db.participants
            (submitPayload ch a (submitTxOf x.1 a) x.2
              (findParticipant db.participants ch.id a)))
          ch.id a =
          some (submitPayload ch a (submitTxOf x.1 a) x.2
            (findParticipant db.participants ch.id a)) :=
        findParticipant_save_self _ _
      have hg' : getActiveChallenge (DBState.mk db.challenges
          (saveParticipant db.participants
            (submitPayload ch a (submitTxOf x.1 a) x.2
              (findParticipant db.participants ch.id a)))).challenges = some ch := hg
      rw [ih _ _ hg' hfind hargs']
      rw [effectiveScoreSum_cons, if_neg hl]
      show (submitPayload ch a (submitTxOf x.1 a) x.2
          (findParticipant db.participants ch.id a)).score +
        effectiveScoreSum (submitPayload ch a (submitTxOf x.1 a) x.2
          (findParticipant db.participants ch.id a)).lastUpdateTxHash rest = _
      rw [show (submitPayload ch a (submitTxOf x.1 a) x.2
          (findParticipant db.participants ch.id a)).score =
        ((findParticipant db.participants ch.id a).map (fun q => q.score)).getD 0 + x.2
        from rfl]
      rw [hf]
      show p.score + x.2 + effectiveScoreSum (some x.1) rest = _
      omega

lemma applySubmits_from_none (a : String) (ch : Challenge)
    (argsOf : String × Nat → List String) (l : List (String × Nat)) (db : DBState)
    (hg : getActiveChallenge db.challenges = some ch)
    (hf : findParticipant db.participants ch.id a = none)
    (hargs : ∀ x ∈ l, parseHexToBigInt (argsOf x)[0]? = some x.2) :
    scoreOf (applyWorkoutSubmissions db a argsOf l) ch.id a =
      effectiveScoreSum none l := by
  cases l with
  | nil =>
    unfold applyWorkoutSubmissions scoreOf effectiveScoreSum
    simp [hf]
  | cons x rest =>
    have hx := hargs x (List.mem_cons_self x rest)
    have hargs' : ∀ y ∈ rest, parseHexToBigInt (argsOf y)[0]? = some y.2 :=
      fun y hy => hargs y (List.mem_cons_of_mem x hy)
    have hguard : ¬ ((findParticipant db.participants ch.id a).bind
        (fun q => q.lastUpdateTxHash) == some (submitTxOf x.1 a).txHash) = true := by
      rw [hf]
      simp
    show scoreOf (applyWorkoutSubmissions
      (handleWorkoutSubmitted db (submitTxOf x.1 a) (argsOf x)) a argsOf rest) ch.id a = _
    rw [submit_effect_eq db (submitTxOf x.1 a) (argsOf x) a ch x.2 rfl hg hx hguard]
    have hfind : findParticipant
        (saveParticipant db.participants
          (submitPayload ch a (submitTxOf x.1 a) x.2
            (findParticipant db.participants ch.id a)))
        ch.id a =
        some (submitPayload ch a (submitTxOf x.1 a) x.2
          (findParticipant db.participants ch.id a)) :=
      findParticipant_save_self _ _
    have hg' : getActiveChallenge (DBState.mk db.challenges
        (saveParticipant db.participants
          (submitPayload ch a (submitTxOf x.1 a) x.2
            (findParticipant db.participants ch.id a)))).challenges = some ch := hg
    rw [applySubmits_aux a ch argsOf rest _ _ hg' hfind hargs']
    rw [effectiveScoreSum_cons,
      if_neg (by simp : ¬ (none : Option String) = some x.1)]
    show (submitPayload ch a (submitTxOf x.1 a) x.2
        (findParticipant db.participants ch.id a)).score +
      effectiveScoreSum (submitPayload ch a (submitTxOf x.1 a) x.2
        (findParticipant db.participants ch.id a)).lastUpdateTxHash rest = _
    rw [show (submitPayload ch a (submitTxOf x.1 a) x.2
        (findParticipant db.participants ch.id a)).score =
      ((findParticipant db.participants ch.id a).map (fun q => q.score)).getD 0 + x.2
      from rfl]
    rw [hf]
    show 0 + x.2 + effectiveScoreSum (some x.1) rest = _
    omega

/-- Claim C3 counterexample: the final score does NOT always equal the sum
over distinct (by transaction hash) submissions — replaying submission `X`
(5 points) after an intervening submission `Z` yields score 13 while the
distinct-hash sum is 8, because the idempotency guard only remembers the most
recent update's hash. -/
theorem c3_distinct_sum_counterexample :
    scoreOf (applyWorkoutSubmissions sampleDB "alice" (fun x => [Nat.repr x.2])
        [("X", 5), ("Z", 3), ("X", 5)]) sampleChallenge.id "alice" = 13 ∧
    specDistinctSum [("X", 5), ("Z", 3), ("X", 5)] = 8 ∧
    scoreOf (applyWorkoutSubmissions sampleDB "alice" (fun x => [Nat.repr x.2])
        [("X", 5), ("Z", 3), ("X", 5)]) sampleChallenge.id "alice" ≠
      specDistinctSum [("X", 5), ("Z", 3), ("X", 5)] := by
  decide

/-- Claim C3 (amended): a participant's score never decreases under any
`submitWorkout` effect, and for a sequence of submissions of one sender into
a fixed active challenge — the participant not existing beforehand, every
submission carrying parseable points — the final score equals the sum of the
submitted point values after dropping immediately-repeated transaction
hashes (the only replays the guard catches).  Equality with the
distinct-by-hash sum fails when a hash recurs non-adjacently (see the
counterexample). -/
theorem c3_score_amended (db : DBState) (a : String) (ch : Challenge)
    (l : List (String × Nat)) (argsOf : String × Nat → List String)
    (hch : getActiveChallenge db.challenges = some ch)
    (hinit : findParticipant db.participants ch.id a = none)
    (hargs : ∀ x ∈ l, parseHexToBigInt (argsOf x)[0]? = some x.2) :
    (∀ (db' : DBState) (tx : NormalizedTransaction) (args : List String)
        (cid addr : String),
      scoreOf db' cid addr ≤ scoreOf (handleWorkoutSubmitted db' tx args) cid addr) ∧
    (∀ n, scoreOf (applyWorkoutSubmissions db a argsOf (l.take n)) ch.id a ≤
      scoreOf (applyWorkoutSubmissions db a argsOf (l.take (n + 1))) ch.id a) ∧
    scoreOf (applyWorkoutSubmissions db a argsOf l) ch.id a =
      effectiveScoreSum none l :=
  ⟨fun db' tx args cid addr => submit_score_mono db' tx args cid addr,
    fun n => applySubmits_take_mono db a argsOf l ch.id a n,
    applySubmits_from_none a ch argsOf l db hch hinit hargs⟩

/-- Claim C3 witness: two concrete submissions of 5 and 3 points by `alice`
into the sample challenge give final score 8, the effective (adjacent-dedup)
sum. -/
theorem c3_score_amended_witness :
    getActiveChallenge sampleDB.challenges = some sampleChallenge ∧
    findParticipant sampleDB.participants sampleChallenge.id "alice" = none ∧
    (∀ x ∈ [("W1", 5), ("W2", 3)],
      parseHexToBigInt ((fun y : String × Nat => [Nat.repr y.2]) x)[0]? = some x.2) ∧
    ((∀ (db' : DBState) (tx : NormalizedTransaction) (args : List String)
        (cid addr : String),
      scoreOf db' cid addr ≤ scoreOf (handleWorkoutSubmitted db' tx args) cid addr) ∧
    (∀ n, scoreOf (applyWorkoutSubmissions sampleDB "alice"
        (fun y : String × Nat => [Nat.repr y.2]) ([("W1", 5), ("W2", 3)].take n))
        sampleChallenge.id "alice" ≤
      scoreOf (applyWorkoutSubmissions sampleDB "alice"
        (fun y : String × Nat => [Nat.repr y.2]) ([("W1", 5), ("W2", 3)].take (n + 1)))
        sampleChallenge.id "alice") ∧
    scoreOf (applyWorkoutSubmissions sampleDB "alice"
        (fun y : String × Nat => [Nat.repr y.2]) [("W1", 5), ("W2", 3)])
        sampleChallenge.id "alice" =
      effectiveScoreSum none [("W1", 5), ("W2", 3)]) :=
  ⟨by decide, by decide, by decide,
    c3_score_amended sampleDB "alice" sampleChallenge [("W1", 5), ("W2", 3)]
      (fun y : String × Nat => [Nat.repr y.2]) (by decide) (by decide) (by decide)⟩

lemma foldl_max_eff (txs : List NormalizedTransaction) :
    ∀ acc : Int, (∀ t ∈ txs, t ∈ txs) →
      acc ≤ txs.foldl (fun a t => max a (effectiveTimestamp t)) acc := by
  induction txs with
  | nil => intro acc _; exact le_refl _
  | cons t rest ih =>
    intro acc _
    rw [List.foldl_cons]
    exact le_trans (le_max_left _ _) (ih _ (fun x hx => hx))

lemma mem_le_foldl_max_eff (txs : List NormalizedTransaction) :
    ∀ (acc : Int) (t : NormalizedTransaction), t ∈ txs →
      effectiveTimestamp t ≤ txs.foldl (fun a x => max a (effectiveTimestamp x)) acc := by
  induction txs with
  | nil => intro acc t ht; simp at ht
  | cons x rest ih =>
    intro acc t ht
    rw [List.foldl_cons]
    rcases List.mem_cons.mp ht with rfl | ht'
    · exact le_trans (le_max_right _ _) (foldl_max_eff rest _ (fun y hy => hy))
    · exact ih _ t ht'

lemma latest_append_eq (l : List NormalizedTransaction) (t : NormalizedTransaction)
    (ihl : (l.foldl markTransactionProcessed emptyWindow).latestTimestampMs =
      (if l.isEmpty then none
       else some (l.foldl (fun acc x => max acc (effectiveTimestamp x)) 0))) :
    some (max ((l.foldl markTransactionProcessed emptyWindow).latestTimestampMs.getD 0)
      (effectiveTimestamp t)) =
    (if (l ++ [t]).isEmpty then none
     else some ((l ++ [t]).foldl (fun acc x => max acc (effectiveTimestamp x)) 0)) := by
  rw [ihl, List.foldl_append, List.foldl_cons, List.foldl_nil]
  cases l with
  | nil => simp
  | cons y ys => simp

lemma foldl_mark_spec :
    ∀ (txs : List NormalizedTransaction),
      (txs.map (fun t => t.txHash)).Nodup →
      (txs.foldl markTransactionProcessed emptyWindow).processedTxQueue =
        (txs.map (fun t => t.txHash)).drop (txs.length - processedTxCacheLimit) ∧
      (txs.foldl markTransactionProcessed emptyWindow).processedTxHashes =
        (txs.map (fun t => t.txHash)).drop (txs.length - processedTxCacheLimit) ∧
      (txs.foldl markTransactionProcessed emptyWindow).latestTimestampMs =
        (if txs.isEmpty then none
         else some (txs.foldl (fun acc t => max acc (effectiveTimestamp t)) 0)) := by
  intro txs
  induction txs using List.reverseRecOn with
  | nil => intro _; exact ⟨rfl, rfl, rfl⟩
  | append_singleton l t ih =>
    intro hnd
    rw [List.map_append] at hnd
    rw [List.nodup_append] at hnd
    obtain ⟨hndl, _, hdisj⟩ := hnd
    have hnotin : t.txHash ∉ l.map (fun x => x.txHash) := by
      intro hmem
      exact hdisj hmem (List.mem_singleton.mpr rfl)
    obtain ⟨ihq, ihh, ihl⟩ := ih hndl
    rw [List.foldl_append, List.foldl_cons, List.foldl_nil]
    have hcont : t.txHash ∉ (l.foldl markTransactionProcessed emptyWindow).processedTxHashes := by
      rw [ihh]
      intro hmem
      exact hnotin (List.drop_subset _ _ hmem)
    have hqlen : (l.foldl markTransactionProcessed emptyWindow).processedTxQueue.length =
        min l.length processedTxCacheLimit := by
      rw [ihq]
      simp only [List.length_drop, List.length_map]
      omega
    by_cases hge : processedTxCacheLimit ≤ l.length
    · have hb : processedTxCacheLimit <
          (l.foldl markTransactionProcessed emptyWindow).processedTxQueue.length + 1 := by
        rw [hqlen]
        omega
      rw [mark_new_evict _ t hcont hb]
      have hdlen : ((l.map (fun x => x.txHash)).drop
          (l.length - processedTxCacheLimit)).length = processedTxCacheLimit := by
        simp only [List.length_drop, List.length_map]
        omega
      cases hLd : (l.map (fun x => x.txHash)).drop (l.length - processedTxCacheLimit) with
      | nil =>
        exfalso
        rw [hLd] at hdlen
        simp [processedTxCacheLimit] at hdlen
      | cons y ys =>
        have htail : ys = (l.map (fun x => x.txHash)).drop
            (l.length - processedTxCacheLimit + 1) := by
          rw [← List.tail_drop, hLd, List.tail_cons]
        have harith : (l ++ [t]).length - processedTxCacheLimit =
            l.length - processedTxCacheLimit + 1 := by
          simp only [List.length_append, List.length_cons, List.length_nil]
          omega
        have hdropped : ((l ++ [t]).map (fun x => x.txHash)).drop
            ((l ++ [t]).length - processedTxCacheLimit) =
            ys ++ [t.txHash] := by
          rw [List.map_append, harith]
          rw [List.drop_append_of_le_length (by
            simp only [List.length_map, processedTxCacheLimit]
            simp only [processedTxCacheLimit] at hge
            omega)]
          rw [← htail]
          rfl
        refine ⟨?_, ?_, latest_append_eq l t ihl⟩
        · rw [ihq, hLd, hdropped]
          rfl
        · rw [ihq, ihh, hLd, hdropped]
          show ((y :: ys) ++ [t.txHash]).erase (((y :: ys) ++ [t.txHash]).headD "") =
            ys ++ [t.txHash]
          rw [List.cons_append, List.headD_cons, List.erase_cons_head]
    · have hb : (l.foldl markTransactionProcessed
          emptyWindow).processedTxQueue.length + 1 ≤ processedTxCacheLimit := by
        rw [hqlen]
        omega
      rw [mark_new_no_evict _ t hcont hb]
      have hz : l.length - processedTxCacheLimit = 0 := by omega
      have hz' : (l ++ [t]).length - processedTxCacheLimit = 0 := by
        simp only [List.length_append, List.length_cons, List.length_nil]
        omega
      refine ⟨?_, ?_, latest_append_eq l t ihl⟩
      · rw [ihq, hz, hz', List.drop_zero, List.drop_zero, List.map_append]
        rfl
      · rw [ihh, hz, hz', List.drop_zero, List.drop_zero, List.map_append]
        rfl

lemma c5_first_evicted (a : NormalizedTransaction) (rest : List NormalizedTransaction)
    (hlen : (a :: rest).length = 501)
    (hnd : ((a :: rest).map (fun t => t.txHash)).Nodup) :
    ((a :: rest).foldl markTransactionProcessed emptyWindow).processedTxHashes =
      rest.map (fun t => t.txHash) ∧
    ((a :: rest).foldl markTransactionProcessed emptyWindow).processedTxQueue =
      rest.map (fun t => t.txHash) ∧
    a.txHash ∉ rest.map (fun t => t.txHash) ∧
    ((a :: rest).foldl markTransactionProcessed emptyWindow).latestTimestampMs =
      some ((a :: rest).foldl (fun acc x => max acc (effectiveTimestamp x)) 0) := by
  obtain ⟨hq, hh, hlat⟩ := foldl_mark_spec (a :: rest) hnd
  have harith : (a :: rest).length - processedTxCacheLimit = 1 := by
    rw [hlen]
    simp [processedTxCacheLimit]
  rw [harith] at hq hh
  have hdrop : ((a :: rest).map (fun t => t.txHash)).drop 1 =
      rest.map (fun t => t.txHash) := by
    rw [List.map_cons, List.drop_one, List.tail_cons]
  rw [hdrop] at hq hh
  have hnotin : a.txHash ∉ rest.map (fun t => t.txHash) := by
    rw [List.map_cons, List.nodup_cons] at hnd
    exact hnd.1
  refine ⟨hh, hq, hnotin, ?_⟩
  rw [hlat]
  rfl

lemma c5_not_contained (w : DedupWindow) (tx : NormalizedTransaction)
    (h : tx.txHash ∉ w.processedTxHashes) :
    w.processedTxHashes.contains tx.txHash = false := by
  simp [List.contains, List.elem_eq_mem, h]

lemma c5_hash_nodup (f : Nat → Int) (n : Nat) :
    (((List.range n).map (fun i => c5tx i (f i))).map (fun t => t.txHash)).Nodup := by
  rw [List.map_map]
  refine List.Nodup.map ?_ (List.nodup_range n)
  intro i j hij
  have hd : List.replicate (i + 1) 'a' = List.replicate (j + 1) 'a' :=
    congrArg String.data hij
  have hl := congrArg List.length hd
  simp only [List.length_replicate] at hl
  omega


lemma foldl_max_const0 (l : List NormalizedTransaction)
    (h : ∀ t ∈ l, effectiveTimestamp t = 0) :
    l.foldl (fun acc x => max acc (effectiveTimestamp x)) 0 = 0 := by
  induction l with
  | nil => rfl
  | cons x rest ih =>
    rw [List.foldl_cons, h x (List.mem_cons_self x rest), max_self]
    exact ih (fun y hy => h y (List.mem_cons_of_mem _ hy))

lemma c5_constant_cons :
    c5ConstantBatch = c5tx 0 0 :: (List.range 500).map (fun i => c5tx (i + 1) 0) := by
  unfold c5ConstantBatch
  rw [show (501 : Nat) = 500 + 1 from rfl, List.range_succ_eq_map, List.map_cons,
    List.map_map]
  rfl

/-- Claim C5 counterexample: 501 distinct-hash transactions with
monotonically non-decreasing (here: all equal) timestamps are marked
processed; the 1st hash is evicted from the membership set and queue, yet
re-presenting the 1st transaction IS novel again — its timestamp equals the
high-water-mark and the gate accepts timestamps at or above the mark, so the
claim's "still not novel" fails for merely non-decreasing timestamps. -/
theorem c5_nondecreasing_counterexample :
    c5ConstantBatch.length = 501 ∧
    (c5ConstantBatch.map (fun t => t.txHash)).Nodup ∧
    (c5ConstantBatch.map effectiveTimestamp).Sorted (· ≤ ·) ∧
    c5ConstantBatch.head? = some (c5tx 0 0) ∧
    (c5tx 0 0).txHash ∉
      (c5ConstantBatch.foldl markTransactionProcessed emptyWindow).processedTxHashes ∧
    (c5tx 0 0).txHash ∉
      (c5ConstantBatch.foldl markTransactionProcessed emptyWindow).processedTxQueue ∧
    isNovelTransaction (c5ConstantBatch.foldl markTransactionProcessed emptyWindow)
      (c5tx 0 0) = true := by
  have hlen : c5ConstantBatch.length = 501 := by
    unfold c5ConstantBatch
    simp
  have hnd : (c5ConstantBatch.map (fun t => t.txHash)).Nodup := c5_hash_nodup _ 501
  have hmono : (c5ConstantBatch.map effectiveTimestamp).Sorted (· ≤ ·) := by
    unfold c5ConstantBatch
    rw [List.map_map]
    rw [show (effectiveTimestamp ∘ fun i => c5tx i 0) = (fun _ : Nat => (0 : Int))
      from rfl]
    exact List.Pairwise.map _ (fun a b _ => le_refl 0) (List.sorted_le_range 501)
  have hzero : ∀ t ∈ c5ConstantBatch, effectiveTimestamp t = 0 := by
    intro t ht
    unfold c5ConstantBatch at ht
    obtain ⟨i, _, rfl⟩ := List.mem_map.mp ht
    rfl
  have hlen' := hlen
  have hnd' := hnd
  rw [c5_constant_cons] at hlen' hnd'
  obtain ⟨hh, hq, hnotin, hlat⟩ := c5_first_evicted _ _ hlen' hnd'
  have hnoth : (c5tx 0 0).txHash ∉
      (c5ConstantBatch.foldl markTransactionProcessed emptyWindow).processedTxHashes := by
    rw [c5_constant_cons, hh]
    exact hnotin
  have hnotq : (c5tx 0 0).txHash ∉
      (c5ConstantBatch.foldl markTransactionProcessed emptyWindow).processedTxQueue := by
    rw [c5_constant_cons, hq]
    exact hnotin
  have hlat0 : (c5ConstantBatch.foldl markTransactionProcessed
      emptyWindow).latestTimestampMs = some 0 := by
    rw [c5_constant_cons, hlat, ← c5_constant_cons, foldl_max_const0 _ hzero]
  refine ⟨hlen, hnd, hmono, by rw [c5_constant_cons]; rfl, hnoth, hnotq, ?_⟩
  unfold isNovelTransaction
  rw [c5_not_contained _ _ hnoth]
  simp only [Bool.false_eq_true, if_false]
  rw [hlat0]
  rfl

/-- Claim C5 (amended): after 501 distinct transaction hashes are marked
processed with timestamps monotonically non-decreasing in processing order
AND the 1st transaction's timestamp strictly below the last's, the 1st hash
has been evicted from the membership set and queue, and re-presenting the 1st
transaction is not novel: the high-water-mark (the maximum processed
timestamp) strictly exceeds its timestamp.  Mere non-decreasing timestamps do
not suffice — with all timestamps equal the evicted transaction is novel
again (see the counterexample). -/
theorem c5_eviction_amended (txs : List NormalizedTransaction)
    (t0 tl : NormalizedTransaction)
    (hlen : txs.length = 501)
    (hnd : (txs.map (fun t => t.txHash)).Nodup)
    (hmono : (txs.map effectiveTimestamp).Sorted (· ≤ ·))
    (h0 : txs.head? = some t0) (hl : txs.getLast? = some tl)
    (hstrict : effectiveTimestamp t0 < effectiveTimestamp tl) :
    t0.txHash ∉ (txs.foldl markTransactionProcessed emptyWindow).processedTxHashes ∧
    t0.txHash ∉ (txs.foldl markTransactionProcessed emptyWindow).processedTxQueue ∧
    isNovelTransaction (txs.foldl markTransactionProcessed emptyWindow) t0 = false := by
  cases txs with
  | nil => simp at h0
  | cons a rest =>
    obtain rfl : a = t0 := by simpa using h0
    obtain ⟨hh, hq, hnotin, hlat⟩ := c5_first_evicted a rest hlen hnd
    have hnoth : a.txHash ∉
        ((a :: rest).foldl markTransactionProcessed emptyWindow).processedTxHashes := by
      rw [hh]
      exact hnotin
    have hnotq : a.txHash ∉
        ((a :: rest).foldl markTransactionProcessed emptyWindow).processedTxQueue := by
      rw [hq]
      exact hnotin
    refine ⟨hnoth, hnotq, ?_⟩
    have htl : tl ∈ a :: rest := List.mem_of_getLast?_eq_some hl
    have hM : effectiveTimestamp tl ≤
        (a :: rest).foldl (fun acc x => max acc (effectiveTimestamp x)) 0 :=
      mem_le_foldl_max_eff _ 0 tl htl
    unfold isNovelTransaction
    rw [c5_not_contained _ _ hnoth]
    simp only [Bool.false_eq_true, if_false]
    rw [hlat]
    show decide ((a :: rest).foldl (fun acc x => max acc (effectiveTimestamp x)) 0 ≤
      effectiveTimestamp a) = false
    rw [decide_eq_false_iff_not]
    omega

lemma c5_increasing_length : c5IncreasingBatch.length = 501 := by
  unfold c5IncreasingBatch
  simp

lemma c5_increasing_nodup : (c5IncreasingBatch.map (fun t => t.txHash)).Nodup :=
  c5_hash_nodup (fun i => (i : Int)) 501

lemma c5_increasing_sorted : (c5IncreasingBatch.map effectiveTimestamp).Sorted (· ≤ ·) := by
  unfold c5IncreasingBatch
  rw [List.map_map]
  exact List.Pairwise.map _ (fun a b hab => Int.ofNat_le.mpr hab)
    (List.sorted_le_range 501)

lemma c5_increasing_cons :
    c5IncreasingBatch = c5tx 0 0 :: (List.range 500).map (fun i => c5tx (i + 1) (i + 1)) := by
  unfold c5IncreasingBatch
  rw [show (501 : Nat) = 500 + 1 from rfl, List.range_succ_eq_map, List.map_cons,
    List.map_map]
  rfl

lemma c5_increasing_head : c5IncreasingBatch.head? = some (c5tx 0 0) := by
  rw [c5_increasing_cons]
  rfl

lemma c5_increasing_last : c5IncreasingBatch.getLast? = some (c5tx 500 500) := by
  unfold c5IncreasingBatch
  rw [show (501 : Nat) = 500 + 1 from rfl, List.range_succ, List.map_append]
  simp [List.getLast?_concat]

/-- Claim C5 witness: 501 concrete transactions with pairwise-distinct hashes
and strictly increasing timestamps 0..500; the 1st is evicted from set and
queue and is no longer novel. -/
theorem c5_eviction_amended_witness :
    c5IncreasingBatch.length = 501 ∧
    (c5IncreasingBatch.map (fun t => t.txHash)).Nodup ∧
    (c5IncreasingBatch.map effectiveTimestamp).Sorted (· ≤ ·) ∧
    c5IncreasingBatch.head? = some (c5tx 0 0) ∧
    c5IncreasingBatch.getLast? = some (c5tx 500 500) ∧
    effectiveTimestamp (c5tx 0 0) < effectiveTimestamp (c5tx 500 500) ∧
    ((c5tx 0 0).txHash ∉
      (c5IncreasingBatch.foldl markTransactionProcessed emptyWindow).processedTxHashes ∧
    (c5tx 0 0).txHash ∉
      (c5IncreasingBatch.foldl markTransactionProcessed emptyWindow).processedTxQueue ∧
    isNovelTransaction (c5IncreasingBatch.foldl markTransactionProcessed emptyWindow)
      (c5tx 0 0) = false) :=
  ⟨c5_increasing_length, c5_increasing_nodup, c5_increasing_sorted, c5_increasing_head,
    c5_increasing_last, by decide,
    c5_eviction_amended c5IncreasingBatch (c5tx 0 0) (c5tx 500 500) c5_increasing_length
      c5_increasing_nodup c5_increasing_sorted c5_increasing_head c5_increasing_last
      (by decide)⟩
